import Mathlib

/-!
# KubeArmorHostPolicy controller: validation and reconciliation

A shallow embedding of
`pkg/KubeArmorHostPolicy/controllers/kubearmorhostpolicy_controller.go`:
the four section validators and `Reconcile`.

* A Go `error` is a `GoError`; the `nil` error is `none`.
* A `for ... range` loop with an early `return` is a structural recursion over
  the list it ranges over.
* The object store is a `Client` over an explicit world state; every call
  `Reconcile` makes (store calls, validator calls, log lines) is recorded, in
  program order, in the `events` of the run.
-/

namespace Controllers

/-! ## Data model -/

/-- Modelled from the spec: the `SourceRef` entry of a `fromSource` list (the
API type declarations are not part of the controller file). The controller
reads `Path` and `Recursive`. -/
structure SourceRef where
  Path : String := ""
  Recursive : Bool := false
deriving DecidableEq, Repr

/-- Modelled from the spec: a match-path rule of the process or file section,
with the two attributes the data model lists. -/
structure MatchPath where
  OwnerOnly : Bool := false
  FromSource : List SourceRef := []
deriving DecidableEq, Repr

/-- Modelled from the spec: a match-directory rule of the process or file
section; the data model gives it the same shape as a match-path rule. -/
structure MatchDirectory where
  OwnerOnly : Bool := false
  FromSource : List SourceRef := []
deriving DecidableEq, Repr

/-- Modelled from the spec: a match-pattern rule; patterns carry no source
list. -/
structure MatchPattern where
  OwnerOnly : Bool := false
deriving DecidableEq, Repr

/-- Modelled from the spec: a match-protocol rule of the network section. -/
structure MatchProtocol where
  FromSource : List SourceRef := []
deriving DecidableEq, Repr

/-- Modelled from the spec: a match-capability rule of the capabilities
section. -/
structure MatchCapability where
  FromSource : List SourceRef := []
deriving DecidableEq, Repr

/-- Modelled from the spec: the process section, `policy.Spec.Process`. -/
structure ProcessType where
  MatchPaths : List MatchPath := []
  MatchDirectories : List MatchDirectory := []
  MatchPatterns : List MatchPattern := []
deriving DecidableEq, Repr

/-- Modelled from the spec: the file section, `policy.Spec.File`. -/
structure FileType where
  MatchPaths : List MatchPath := []
  MatchDirectories : List MatchDirectory := []
  MatchPatterns : List MatchPattern := []
deriving DecidableEq, Repr

/-- Modelled from the spec: the network section, `policy.Spec.Network`. -/
structure NetworkType where
  MatchProtocols : List MatchProtocol := []
deriving DecidableEq, Repr

/-- Modelled from the spec: the capabilities section,
`policy.Spec.Capabilities`. -/
structure CapabilitiesType where
  MatchCapabilities : List MatchCapability := []
deriving DecidableEq, Repr

/-- Modelled from the spec: `policy.Spec`. The action is the string the
controller compares with `"Allow"`. -/
structure KubeArmorHostPolicySpec where
  Action : String := ""
  Process : ProcessType := {}
  File : FileType := {}
  Network : NetworkType := {}
  Capabilities : CapabilitiesType := {}
deriving DecidableEq, Repr

/-- Modelled from the spec: `policy.Status`, with its mutable string field. -/
structure KubeArmorHostPolicyStatus where
  PolicyStatus : String := ""
deriving DecidableEq, Repr

/-- Modelled from the spec: the policy object under validation. -/
structure KubeArmorHostPolicy where
  Spec : KubeArmorHostPolicySpec := {}
  Status : KubeArmorHostPolicyStatus := {}
deriving DecidableEq, Repr

/-- The reference of a policy, `req.NamespacedName`. -/
structure NamespacedName where
  Namespace : String := ""
  Name : String := ""
deriving DecidableEq, Repr

/-- The text `%v` prints for a reference: namespace, a slash, name. -/
def NamespacedName.String (n : NamespacedName) : String :=
  n.Namespace ++ "/" ++ n.Name

/-- The reconcile request, `ctrl.Request`. -/
structure Request where
  NamespacedName : NamespacedName := {}
deriving DecidableEq, Repr

/-- The reconcile result, `ctrl.Result`; `ctrl.Result{}` is its zero value. -/
structure Result where
  Requeue : Bool := false
  RequeueAfter : Nat := 0
deriving DecidableEq, Repr

/-! ## Errors -/

/-- A non-nil Go `error`: either an API status error of the object store, with
its reason, or a plain error carrying a text (what `fmt.Errorf` builds). -/
inductive GoError where
  | statusError (reason : String) (message : String)
  | errorString (text : String)
deriving DecidableEq, Repr

/-- The call `errors.IsNotFound(err)` on a non-nil error: the reason of a
status error is `NotFound`. -/
def IsNotFound : GoError → Bool
  | .statusError reason _ => reason == "NotFound"
  | .errorString _ => false

/-- The call `client.IgnoreNotFound(err)` on a non-nil error: `nil` for a
not-found error, the error itself otherwise. -/
def IgnoreNotFound (err : GoError) : Option GoError :=
  if IsNotFound err then none else some err

/-- The call `fmt.Errorf(format, req.NamespacedName)` for a format that ends in
`%v`: `text` is the format up to the verb. -/
def Errorf (text : String) (n : NamespacedName) : GoError :=
  .errorString (text ++ n.String)

/-! ## Validators -/

/-- The inner loop of `validateProcessSchema` (lines 98-105), of
`validateNetworkSchema` (lines 166-173) and of `validateCapabilitiesSchema`
(lines 181-188), which are textually the same: range over the `FromSource` of
one rule. -/
def fromSourceLoop (req : Request) : List SourceRef → Option GoError
  | [] => none
  | fromSource :: rest =>
    if fromSource.Path ≠ "" then
      if fromSource.Recursive || !fromSource.Recursive then
        some (Errorf "recursive is only effective with directories, not paths " req.NamespacedName)
      else fromSourceLoop req rest
    else fromSourceLoop req rest

/-- The inner loop of `validateFileSchema` (lines 135-142). -/
def fileFromSourceLoop (req : Request) : List SourceRef → Option GoError
  | [] => none
  | fromSource :: rest =>
    if fromSource.Path ≠ "" then
      if fromSource.Recursive then
        some (Errorf "recursive is only effective with directories, not paths " req.NamespacedName)
      else fileFromSourceLoop req rest
    else fileFromSourceLoop req rest

/-- The first loop of `validateProcessSchema` (lines 91-106). -/
def processMatchPathsLoop (action : String) (req : Request) : List MatchPath → Option GoError
  | [] => none
  | matchPaths :: rest =>
    if action ≠ "Allow" ∧ matchPaths.OwnerOnly = true then
      some (Errorf "ownerOnly works with the Allow action " req.NamespacedName)
    else
      match fromSourceLoop req matchPaths.FromSource with
      | some policyErr => some policyErr
      | none => processMatchPathsLoop action req rest

/-- The first loop of `validateFileSchema` (lines 128-143). -/
def fileMatchPathsLoop (action : String) (req : Request) : List MatchPath → Option GoError
  | [] => none
  | matchPaths :: rest =>
    if action ≠ "Allow" ∧ matchPaths.OwnerOnly = true then
      some (Errorf "ownerOnly works with the Allow action " req.NamespacedName)
    else
      match fileFromSourceLoop req matchPaths.FromSource with
      | some policyErr => some policyErr
      | none => fileMatchPathsLoop action req rest

/-- The match-directories loop of `validateProcessSchema` (lines 107-114) and
of `validateFileSchema` (lines 144-151): the owner-only check alone. -/
def matchDirectoriesLoop (action : String) (req : Request) : List MatchDirectory → Option GoError
  | [] => none
  | matchDirectories :: rest =>
    if action ≠ "Allow" ∧ matchDirectories.OwnerOnly = true then
      some (Errorf "ownerOnly works with the Allow action " req.NamespacedName)
    else matchDirectoriesLoop action req rest

/-- The match-patterns loop of `validateProcessSchema` (lines 115-122) and of
`validateFileSchema` (lines 152-159). -/
def matchPatternsLoop (action : String) (req : Request) : List MatchPattern → Option GoError
  | [] => none
  | matchPatterns :: rest =>
    if action ≠ "Allow" ∧ matchPatterns.OwnerOnly = true then
      some (Errorf "ownerOnly works with the Allow action " req.NamespacedName)
    else matchPatternsLoop action req rest

/-- The function `validateProcessSchema` (lines 89-124). -/
def validateProcessSchema (policy : KubeArmorHostPolicy) (req : Request) : Option GoError :=
  match processMatchPathsLoop policy.Spec.Action req policy.Spec.Process.MatchPaths with
  | some policyErr => some policyErr
  | none =>
    match matchDirectoriesLoop policy.Spec.Action req policy.Spec.Process.MatchDirectories with
    | some policyErr => some policyErr
    | none => matchPatternsLoop policy.Spec.Action req policy.Spec.Process.MatchPatterns

/-- The function `validateFileSchema` (lines 126-161). -/
def validateFileSchema (policy : KubeArmorHostPolicy) (req : Request) : Option GoError :=
  match fileMatchPathsLoop policy.Spec.Action req policy.Spec.File.MatchPaths with
  | some policyErr => some policyErr
  | none =>
    match matchDirectoriesLoop policy.Spec.Action req policy.Spec.File.MatchDirectories with
    | some policyErr => some policyErr
    | none => matchPatternsLoop policy.Spec.Action req policy.Spec.File.MatchPatterns

/-- The outer loop of `validateNetworkSchema` (lines 165-174). -/
def matchProtocolsLoop (req : Request) : List MatchProtocol → Option GoError
  | [] => none
  | matchProtocols :: rest =>
    match fromSourceLoop req matchProtocols.FromSource with
    | some policyErr => some policyErr
    | none => matchProtocolsLoop req rest

/-- The function `validateNetworkSchema` (lines 163-176). -/
def validateNetworkSchema (policy : KubeArmorHostPolicy) (req : Request) : Option GoError :=
  matchProtocolsLoop req policy.Spec.Network.MatchProtocols

/-- The outer loop of `validateCapabilitiesSchema` (lines 180-189). -/
def matchCapabilitiesLoop (req : Request) : List MatchCapability → Option GoError
  | [] => none
  | matchCapabilities :: rest =>
    match fromSourceLoop req matchCapabilities.FromSource with
    | some policyErr => some policyErr
    | none => matchCapabilitiesLoop req rest

/-- The function `validateCapabilitiesSchema` (lines 178-191). -/
def validateCapabilitiesSchema (policy : KubeArmorHostPolicy) (req : Request) : Option GoError :=
  matchCapabilitiesLoop req policy.Spec.Capabilities.MatchCapabilities

/-! ## Reconcile -/

/-- The four sections of a policy, in the order `Reconcile` validates them. -/
inductive Section where
  | process
  | file
  | network
  | capabilities
deriving DecidableEq, Repr

/-- One call made during a run of `Reconcile`. `delete` is the store's delete
operation, which the reconciler's client offers as well. -/
inductive Event where
  | get (key : NamespacedName)
  | validate (sec : Section)
  | statusUpdate (policy : KubeArmorHostPolicy)
  | delete (policy : KubeArmorHostPolicy)
  | logInfo (msg : String)
deriving DecidableEq, Repr

/-- The object store the reconciler calls into, over a world state `σ`:
`Get` answers with the policy or an error, `StatusUpdate` (the call
`r.Status().Update`) with `nil` or an error; either may change the world. -/
structure Client (σ : Type) where
  Get : NamespacedName → σ → Except GoError KubeArmorHostPolicy × σ
  StatusUpdate : KubeArmorHostPolicy → σ → Option GoError × σ

/-- What one run of `Reconcile` produces: the two returned values, the calls
made in program order, and the world afterwards. -/
structure Run (σ : Type) where
  result : Result
  err : Option GoError
  events : List Event
  world : σ

/-- The validation pass of `Reconcile` (lines 41-65): the validators are called
in turn and the first non-nil `policyErr` jumps to `POLICYERROR`. Returns the
final `policyErr` and the sections whose validator was called. -/
def validationPass (policy : KubeArmorHostPolicy) (req : Request) :
    Option GoError × List Section :=
  match validateProcessSchema policy req with
  | some policyErr => (some policyErr, [.process])
  | none =>
    match validateFileSchema policy req with
    | some policyErr => (some policyErr, [.process, .file])
    | none =>
      match validateNetworkSchema policy req with
      | some policyErr => (some policyErr, [.process, .file, .network])
      | none =>
        (validateCapabilitiesSchema policy req, [.process, .file, .network, .capabilities])

/-- The method `Reconcile` (lines 29-81). -/
def Reconcile {σ : Type} (r : Client σ) (req : Request) (w : σ) : Run σ :=
  match r.Get req.NamespacedName w with
  | (.error err, w1) =>
    if IsNotFound err then
      ⟨{}, IgnoreNotFound err, [.get req.NamespacedName], w1⟩
    else
      ⟨{}, some err, [.get req.NamespacedName], w1⟩
  | (.ok policy, w1) =>
    let pass := validationPass policy req
    match pass.1 with
    | some _ =>
      let policy1 := { policy with Status := { policy.Status with PolicyStatus := "Not OK" } }
      let upd := r.StatusUpdate policy1 w1
      ⟨{}, upd.1,
        [.get req.NamespacedName] ++ pass.2.map Event.validate ++
          [.statusUpdate policy1, .logInfo "Invalid KubeArmorHostPolicy"],
        upd.2⟩
    | none =>
      let policy1 := { policy with Status := { policy.Status with PolicyStatus := "OK" } }
      let upd := r.StatusUpdate policy1 w1
      ⟨{}, none,
        [.get req.NamespacedName] ++ pass.2.map Event.validate ++
          [.statusUpdate policy1, .logInfo "Fetched KubeArmorHostPolicy"],
        upd.2⟩

/-- The policies handed to the status write during a run, in order. -/
def statusWrites : List Event → List KubeArmorHostPolicy
  | [] => []
  | .statusUpdate policy :: rest => policy :: statusWrites rest
  | _ :: rest => statusWrites rest

/-- The sections validated during a run, in order. -/
def validatedSections : List Event → List Section
  | [] => []
  | .validate sec :: rest => sec :: validatedSections rest
  | _ :: rest => validatedSections rest

/-! ## A concrete object store -/

/-- An in-memory object store holding at most one policy, under the reference
`key`, together with the faults the store answers a `Get` and a status update
with, if any. -/
structure Store where
  key : NamespacedName := {}
  object : Option KubeArmorHostPolicy := none
  getFault : Option GoError := none
  updateFault : Option GoError := none
deriving DecidableEq, Repr

/-- The not-found status error of the in-memory store. -/
def Store.notFound (n : NamespacedName) : GoError :=
  .statusError "NotFound" (n.String ++ " not found")

/-- The client of the in-memory store. `Get` fails with the injected fault, or
with a not-found status error when nothing is stored under the reference. A
status update replaces the stored policy unless its fault is injected or
nothing is stored. -/
def storeClient : Client Store where
  Get := fun n w =>
    match w.getFault with
    | some err => (.error err, w)
    | none =>
      match w.object with
      | some policy => if n = w.key then (.ok policy, w) else (.error (Store.notFound n), w)
      | none => (.error (Store.notFound n), w)
  StatusUpdate := fun policy w =>
    match w.updateFault with
    | some err => (some err, w)
    | none =>
      match w.object with
      | some _ => (none, { w with object := some policy })
      | none => (some (Store.notFound w.key), w)

/-- The statuses handed to the status write during a run, in order. -/
def writtenStatuses (events : List Event) : List String :=
  (statusWrites events).map fun policy => policy.Status.PolicyStatus

/-- The object-store operations among the calls of a run, in order: the
fetches, the status updates and the deletes. -/
def storeOps : List Event → List Event
  | [] => []
  | .get key :: rest => .get key :: storeOps rest
  | .statusUpdate policy :: rest => .statusUpdate policy :: storeOps rest
  | .delete policy :: rest => .delete policy :: storeOps rest
  | _ :: rest => storeOps rest

/-! ## Example policies -/

/-- The reference used in the examples. -/
def sampleRequest : Request :=
  { NamespacedName := { Namespace := "default", Name := "hsp" } }

/-- The store holding `policy` under the reference of `sampleRequest`. -/
def sampleStore (policy : KubeArmorHostPolicy) : Store :=
  { key := sampleRequest.NamespacedName, object := some policy }

/-- The policy `{action: Block, process.matchPaths: [{ownerOnly: true}]}`. -/
def blockOwnerOnlyPolicy : KubeArmorHostPolicy :=
  { Spec := { Action := "Block", Process := { MatchPaths := [{ OwnerOnly := true }] } } }

/-- The policy `{action: Allow, network.matchProtocols:
[{fromSource: [{path: "/bin/app", recursive: false}]}]}`. -/
def allowNetworkSourcePolicy : KubeArmorHostPolicy :=
  { Spec := { Action := "Allow",
              Network := { MatchProtocols :=
                [{ FromSource := [{ Path := "/bin/app", Recursive := false }] }] } } }

/-- The policy `{action: Allow, file.matchPaths:
[{fromSource: [{path: "/bin/app", recursive: false}]}]}`. -/
def allowFileSourcePolicy : KubeArmorHostPolicy :=
  { Spec := { Action := "Allow",
              File := { MatchPaths :=
                [{ FromSource := [{ Path := "/bin/app", Recursive := false }] }] } } }

/-- An `Allow` policy with owner-only rules in both sections and an accepted
file source. -/
def allowOwnerOnlyPolicy : KubeArmorHostPolicy :=
  { Spec := { Action := "Allow",
              Process := { MatchPaths := [{ OwnerOnly := true }],
                           MatchPatterns := [{ OwnerOnly := true }] },
              File := { MatchPaths :=
                          [{ OwnerOnly := true,
                             FromSource := [{ Path := "/bin/app", Recursive := false }] }],
                        MatchDirectories := [{ OwnerOnly := true }] } } }

/-- A `Block` policy violating both its process section (owner-only) and its
file section (recursive source path). -/
def blockBothSectionsPolicy : KubeArmorHostPolicy :=
  { Spec := { Action := "Block",
              Process := { MatchPaths := [{ OwnerOnly := true }] },
              File := { MatchPaths :=
                [{ FromSource := [{ Path := "/bin/app", Recursive := true }] }] } } }

/-- A store error that is not a not-found error. -/
def conflictError : GoError :=
  .statusError "Conflict" "the object has been modified"

/-- An `Allow` policy whose match-directory rules, in the process and in the
file section, carry a source with a non-empty path and `recursive = true`. -/
def allowDirectorySourcePolicy : KubeArmorHostPolicy :=
  { Spec := { Action := "Allow",
              Process := { MatchDirectories :=
                [{ FromSource := [{ Path := "/bin/app", Recursive := true }] }] },
              File := { MatchDirectories :=
                [{ FromSource := [{ Path := "/bin/app", Recursive := true }] }] } } }

/-- The policy with `action = Block` and `process.matchPaths =
[{fromSource: [{path: "/bin/x"}]}, {ownerOnly: true}]`. -/
def blockSourceThenOwnerPolicy : KubeArmorHostPolicy :=
  { Spec := { Action := "Block",
              Process := { MatchPaths :=
                [{ FromSource := [{ Path := "/bin/x" }] }, { OwnerOnly := true }] } } }

/-! ## The traversal of a section, as the specification words it

A section is a sequence of checks, each reporting a violation or none; the
validator is to return the first violation of the sequence. These definitions
follow the specification and are compared with the validators below. -/

/-- The first violation in a sequence of checks, or none. -/
def firstViolation : List (Option GoError) → Option GoError
  | [] => none
  | some policyErr :: _ => some policyErr
  | none :: rest => firstViolation rest

/-- The owner-only check of one rule: a violation when the action is not
`"Allow"` and the rule has `ownerOnly = true`. -/
def ownerOnlyCheck (action : String) (req : Request) (ownerOnly : Bool) : Option GoError :=
  if action ≠ "Allow" ∧ ownerOnly = true then
    some (Errorf "ownerOnly works with the Allow action " req.NamespacedName)
  else none

/-- The source check of the process section: a violation when the path is
non-empty. -/
def sourceCheck (req : Request) (src : SourceRef) : Option GoError :=
  if src.Path ≠ "" then
    some (Errorf "recursive is only effective with directories, not paths " req.NamespacedName)
  else none

/-- The source check of the file section: a violation when the path is
non-empty and `recursive = true`. -/
def fileSourceCheck (req : Request) (src : SourceRef) : Option GoError :=
  if src.Path ≠ "" ∧ src.Recursive = true then
    some (Errorf "recursive is only effective with directories, not paths " req.NamespacedName)
  else none

/-- The checks of the match-path rules in their given order: for each rule its
owner-only check, then the checks of its sources in order. -/
def matchPathsTraversal (check : SourceRef → Option GoError) (action : String) (req : Request) :
    List MatchPath → List (Option GoError)
  | [] => []
  | m :: rest =>
    ownerOnlyCheck action req m.OwnerOnly ::
      (m.FromSource.map check ++ matchPathsTraversal check action req rest)

/-- The traversal of the process section: the match-path rules, then the
owner-only checks of the match-directory rules, then those of the match-pattern
rules. -/
def processTraversal (policy : KubeArmorHostPolicy) (req : Request) : List (Option GoError) :=
  matchPathsTraversal (sourceCheck req) policy.Spec.Action req policy.Spec.Process.MatchPaths ++
    (policy.Spec.Process.MatchDirectories.map
        (fun m => ownerOnlyCheck policy.Spec.Action req m.OwnerOnly) ++
      policy.Spec.Process.MatchPatterns.map
        (fun m => ownerOnlyCheck policy.Spec.Action req m.OwnerOnly))

/-- The traversal of the file section, in the same order. -/
def fileTraversal (policy : KubeArmorHostPolicy) (req : Request) : List (Option GoError) :=
  matchPathsTraversal (fileSourceCheck req) policy.Spec.Action req policy.Spec.File.MatchPaths ++
    (policy.Spec.File.MatchDirectories.map
        (fun m => ownerOnlyCheck policy.Spec.Action req m.OwnerOnly) ++
      policy.Spec.File.MatchPatterns.map
        (fun m => ownerOnlyCheck policy.Spec.Action req m.OwnerOnly))

/-! ## Adding rules to a policy -/

/-- The list `l1` is `l` with further elements appended, each element of `l`
itself being allowed to grow as `R` says. -/
def Appended {α : Type} (R : α → α → Prop) (l l1 : List α) : Prop :=
  ∃ grown extra, l1 = grown ++ extra ∧ List.Forall₂ R l grown

/-- The source list `l1` is `l` with further SourceRefs appended. -/
def sourcesAppended (l l1 : List SourceRef) : Prop :=
  ∃ extra, l1 = l ++ extra

/-- The match-path rule `m1` is `m` with further SourceRefs appended. -/
def MatchPath.grows (m m1 : MatchPath) : Prop :=
  m1.OwnerOnly = m.OwnerOnly ∧ sourcesAppended m.FromSource m1.FromSource

/-- The match-directory rule `m1` is `m` with further SourceRefs appended. -/
def MatchDirectory.grows (m m1 : MatchDirectory) : Prop :=
  m1.OwnerOnly = m.OwnerOnly ∧ sourcesAppended m.FromSource m1.FromSource

/-- The match-protocol rule `m1` is `m` with further SourceRefs appended. -/
def MatchProtocol.grows (m m1 : MatchProtocol) : Prop :=
  sourcesAppended m.FromSource m1.FromSource

/-- The match-capability rule `m1` is `m` with further SourceRefs appended. -/
def MatchCapability.grows (m m1 : MatchCapability) : Prop :=
  sourcesAppended m.FromSource m1.FromSource

/-- The policy `p1` has the action of `p` and is obtained from it by appending
further rules to its rule lists and further SourceRefs to its `fromSource`
lists. -/
structure PolicyAppended (p p1 : KubeArmorHostPolicy) : Prop where
  action : p1.Spec.Action = p.Spec.Action
  processPaths :
    Appended MatchPath.grows p.Spec.Process.MatchPaths p1.Spec.Process.MatchPaths
  processDirectories :
    Appended MatchDirectory.grows p.Spec.Process.MatchDirectories
      p1.Spec.Process.MatchDirectories
  processPatterns :
    Appended (fun m m1 => m1 = m) p.Spec.Process.MatchPatterns p1.Spec.Process.MatchPatterns
  filePaths : Appended MatchPath.grows p.Spec.File.MatchPaths p1.Spec.File.MatchPaths
  fileDirectories :
    Appended MatchDirectory.grows p.Spec.File.MatchDirectories p1.Spec.File.MatchDirectories
  filePatterns :
    Appended (fun m m1 => m1 = m) p.Spec.File.MatchPatterns p1.Spec.File.MatchPatterns
  protocols :
    Appended MatchProtocol.grows p.Spec.Network.MatchProtocols p1.Spec.Network.MatchProtocols
  capabilities :
    Appended MatchCapability.grows p.Spec.Capabilities.MatchCapabilities
      p1.Spec.Capabilities.MatchCapabilities

/-- The policy `blockOwnerOnlyPolicy` with a source appended to its rule, a
second match-path rule and a match-protocol rule appended. -/
def blockOwnerOnlyGrownPolicy : KubeArmorHostPolicy :=
  { Spec := { Action := "Block",
              Process := { MatchPaths :=
                [{ OwnerOnly := true, FromSource := [{ Path := "/bin/x" }] }, {}] },
              Network := { MatchProtocols := [{}] } } }

/-! ## Lemmas on the loops -/

theorem fromSourceLoop_eq_none (req : Request) (l : List SourceRef) :
    fromSourceLoop req l = none ↔ ∀ s ∈ l, s.Path = "" := by
  induction l with
  | nil => simp [fromSourceLoop]
  | cons a l ih =>
    by_cases h : a.Path = ""
    · simp [fromSourceLoop, h, ih]
    · simp [fromSourceLoop, h]

theorem fileFromSourceLoop_eq_none (req : Request) (l : List SourceRef) :
    fileFromSourceLoop req l = none ↔ ∀ s ∈ l, ¬ (s.Path ≠ "" ∧ s.Recursive = true) := by
  induction l with
  | nil => simp [fileFromSourceLoop]
  | cons a l ih =>
    by_cases h : a.Path = ""
    · simp [fileFromSourceLoop, h, ih]
    · by_cases hr : a.Recursive = true
      · simp [fileFromSourceLoop, h, hr]
      · simp [fileFromSourceLoop, h, hr, ih]

theorem processMatchPathsLoop_eq_none (action : String) (req : Request) (l : List MatchPath) :
    processMatchPathsLoop action req l = none ↔
      ∀ m ∈ l, ¬ (action ≠ "Allow" ∧ m.OwnerOnly = true) ∧ ∀ s ∈ m.FromSource, s.Path = "" := by
  induction l with
  | nil => simp [processMatchPathsLoop]
  | cons a l ih =>
    by_cases h : action ≠ "Allow" ∧ a.OwnerOnly = true
    · simp only [processMatchPathsLoop, if_pos h]
      constructor
      · intro hc; cases hc
      · intro hc; exact absurd h (hc a (List.mem_cons_self a l)).1
    · simp only [processMatchPathsLoop, if_neg h]
      cases hs : fromSourceLoop req a.FromSource with
      | some e =>
        constructor
        · intro hc; cases hc
        · intro hc
          have := (fromSourceLoop_eq_none req a.FromSource).2 (hc a (List.mem_cons_self a l)).2
          rw [hs] at this; cases this
      | none =>
        have hs1 := (fromSourceLoop_eq_none req a.FromSource).1 hs
        simp only [ih, List.forall_mem_cons]
        constructor
        · intro hc; exact ⟨⟨h, hs1⟩, hc⟩
        · intro hc; exact hc.2

theorem fileMatchPathsLoop_eq_none (action : String) (req : Request) (l : List MatchPath) :
    fileMatchPathsLoop action req l = none ↔
      ∀ m ∈ l, ¬ (action ≠ "Allow" ∧ m.OwnerOnly = true) ∧
        ∀ s ∈ m.FromSource, ¬ (s.Path ≠ "" ∧ s.Recursive = true) := by
  induction l with
  | nil => simp [fileMatchPathsLoop]
  | cons a l ih =>
    by_cases h : action ≠ "Allow" ∧ a.OwnerOnly = true
    · simp only [fileMatchPathsLoop, if_pos h]
      constructor
      · intro hc; cases hc
      · intro hc; exact absurd h (hc a (List.mem_cons_self a l)).1
    · simp only [fileMatchPathsLoop, if_neg h]
      cases hs : fileFromSourceLoop req a.FromSource with
      | some e =>
        constructor
        · intro hc; cases hc
        · intro hc
          have := (fileFromSourceLoop_eq_none req a.FromSource).2 (hc a (List.mem_cons_self a l)).2
          rw [hs] at this; cases this
      | none =>
        have hs1 := (fileFromSourceLoop_eq_none req a.FromSource).1 hs
        simp only [ih, List.forall_mem_cons]
        constructor
        · intro hc; exact ⟨⟨h, hs1⟩, hc⟩
        · intro hc; exact hc.2

theorem matchDirectoriesLoop_eq_none (action : String) (req : Request) (l : List MatchDirectory) :
    matchDirectoriesLoop action req l = none ↔
      ∀ m ∈ l, ¬ (action ≠ "Allow" ∧ m.OwnerOnly = true) := by
  induction l with
  | nil => simp [matchDirectoriesLoop]
  | cons a l ih =>
    by_cases h : action ≠ "Allow" ∧ a.OwnerOnly = true
    · simp only [matchDirectoriesLoop, if_pos h]
      constructor
      · intro hc; cases hc
      · intro hc; exact absurd h (hc a (List.mem_cons_self a l))
    · simp only [matchDirectoriesLoop, if_neg h, ih, List.forall_mem_cons]
      constructor
      · intro hc; exact ⟨h, hc⟩
      · intro hc; exact hc.2

theorem matchPatternsLoop_eq_none (action : String) (req : Request) (l : List MatchPattern) :
    matchPatternsLoop action req l = none ↔
      ∀ m ∈ l, ¬ (action ≠ "Allow" ∧ m.OwnerOnly = true) := by
  induction l with
  | nil => simp [matchPatternsLoop]
  | cons a l ih =>
    by_cases h : action ≠ "Allow" ∧ a.OwnerOnly = true
    · simp only [matchPatternsLoop, if_pos h]
      constructor
      · intro hc; cases hc
      · intro hc; exact absurd h (hc a (List.mem_cons_self a l))
    · simp only [matchPatternsLoop, if_neg h, ih, List.forall_mem_cons]
      constructor
      · intro hc; exact ⟨h, hc⟩
      · intro hc; exact hc.2

theorem matchProtocolsLoop_eq_none (req : Request) (l : List MatchProtocol) :
    matchProtocolsLoop req l = none ↔ ∀ m ∈ l, ∀ s ∈ m.FromSource, s.Path = "" := by
  induction l with
  | nil => simp [matchProtocolsLoop]
  | cons a l ih =>
    simp only [matchProtocolsLoop, List.forall_mem_cons]
    cases hs : fromSourceLoop req a.FromSource with
    | some e =>
      constructor
      · intro hc; cases hc
      · intro hc
        have := (fromSourceLoop_eq_none req a.FromSource).2 hc.1
        rw [hs] at this; cases this
    | none =>
      have hs1 := (fromSourceLoop_eq_none req a.FromSource).1 hs
      simp only [ih]
      constructor
      · intro hc; exact ⟨hs1, hc⟩
      · intro hc; exact hc.2

theorem matchCapabilitiesLoop_eq_none (req : Request) (l : List MatchCapability) :
    matchCapabilitiesLoop req l = none ↔ ∀ m ∈ l, ∀ s ∈ m.FromSource, s.Path = "" := by
  induction l with
  | nil => simp [matchCapabilitiesLoop]
  | cons a l ih =>
    simp only [matchCapabilitiesLoop, List.forall_mem_cons]
    cases hs : fromSourceLoop req a.FromSource with
    | some e =>
      constructor
      · intro hc; cases hc
      · intro hc
        have := (fromSourceLoop_eq_none req a.FromSource).2 hc.1
        rw [hs] at this; cases this
    | none =>
      have hs1 := (fromSourceLoop_eq_none req a.FromSource).1 hs
      simp only [ih]
      constructor
      · intro hc; exact ⟨hs1, hc⟩
      · intro hc; exact hc.2

/-! ## Lemmas on the validators and on the validation pass -/

theorem validateProcessSchema_eq_none (policy : KubeArmorHostPolicy) (req : Request) :
    validateProcessSchema policy req = none ↔
      (∀ m ∈ policy.Spec.Process.MatchPaths,
        ¬ (policy.Spec.Action ≠ "Allow" ∧ m.OwnerOnly = true) ∧
          ∀ s ∈ m.FromSource, s.Path = "") ∧
      (∀ m ∈ policy.Spec.Process.MatchDirectories,
        ¬ (policy.Spec.Action ≠ "Allow" ∧ m.OwnerOnly = true)) ∧
      (∀ m ∈ policy.Spec.Process.MatchPatterns,
        ¬ (policy.Spec.Action ≠ "Allow" ∧ m.OwnerOnly = true)) := by
  rw [← processMatchPathsLoop_eq_none policy.Spec.Action req,
    ← matchDirectoriesLoop_eq_none policy.Spec.Action req,
    ← matchPatternsLoop_eq_none policy.Spec.Action req]
  unfold validateProcessSchema
  cases processMatchPathsLoop policy.Spec.Action req policy.Spec.Process.MatchPaths with
  | some e => simp
  | none =>
    cases matchDirectoriesLoop policy.Spec.Action req policy.Spec.Process.MatchDirectories with
    | some e => simp
    | none => simp

theorem validateFileSchema_eq_none (policy : KubeArmorHostPolicy) (req : Request) :
    validateFileSchema policy req = none ↔
      (∀ m ∈ policy.Spec.File.MatchPaths,
        ¬ (policy.Spec.Action ≠ "Allow" ∧ m.OwnerOnly = true) ∧
          ∀ s ∈ m.FromSource, ¬ (s.Path ≠ "" ∧ s.Recursive = true)) ∧
      (∀ m ∈ policy.Spec.File.MatchDirectories,
        ¬ (policy.Spec.Action ≠ "Allow" ∧ m.OwnerOnly = true)) ∧
      (∀ m ∈ policy.Spec.File.MatchPatterns,
        ¬ (policy.Spec.Action ≠ "Allow" ∧ m.OwnerOnly = true)) := by
  rw [← fileMatchPathsLoop_eq_none policy.Spec.Action req,
    ← matchDirectoriesLoop_eq_none policy.Spec.Action req,
    ← matchPatternsLoop_eq_none policy.Spec.Action req]
  unfold validateFileSchema
  cases fileMatchPathsLoop policy.Spec.Action req policy.Spec.File.MatchPaths with
  | some e => simp
  | none =>
    cases matchDirectoriesLoop policy.Spec.Action req policy.Spec.File.MatchDirectories with
    | some e => simp
    | none => simp

theorem validateNetworkSchema_eq_none (policy : KubeArmorHostPolicy) (req : Request) :
    validateNetworkSchema policy req = none ↔
      ∀ m ∈ policy.Spec.Network.MatchProtocols, ∀ s ∈ m.FromSource, s.Path = "" :=
  matchProtocolsLoop_eq_none req policy.Spec.Network.MatchProtocols

theorem validateCapabilitiesSchema_eq_none (policy : KubeArmorHostPolicy) (req : Request) :
    validateCapabilitiesSchema policy req = none ↔
      ∀ m ∈ policy.Spec.Capabilities.MatchCapabilities, ∀ s ∈ m.FromSource, s.Path = "" :=
  matchCapabilitiesLoop_eq_none req policy.Spec.Capabilities.MatchCapabilities

theorem validationPass_eq_none (policy : KubeArmorHostPolicy) (req : Request) :
    (validationPass policy req).1 = none ↔
      validateProcessSchema policy req = none ∧ validateFileSchema policy req = none ∧
        validateNetworkSchema policy req = none ∧ validateCapabilitiesSchema policy req = none := by
  unfold validationPass
  cases validateProcessSchema policy req with
  | some e => simp
  | none =>
    cases validateFileSchema policy req with
    | some e => simp
    | none =>
      cases validateNetworkSchema policy req with
      | some e => simp
      | none => simp

theorem statusWrites_run (key : NamespacedName) (secs : List Section)
    (policy : KubeArmorHostPolicy) (msg : String) :
    statusWrites ([Event.get key] ++ secs.map Event.validate ++
      [Event.statusUpdate policy, Event.logInfo msg]) = [policy] := by
  induction secs with
  | nil => rfl
  | cons a l ih => simpa [statusWrites] using ih

theorem validatedSections_run (key : NamespacedName) (secs : List Section)
    (policy : KubeArmorHostPolicy) (msg : String) :
    validatedSections ([Event.get key] ++ secs.map Event.validate ++
      [Event.statusUpdate policy, Event.logInfo msg]) = secs := by
  induction secs with
  | nil => rfl
  | cons a l ih => simpa [validatedSections] using ih

/-- The run of `Reconcile` on a fetched policy with a violation. -/
theorem Reconcile_of_violation {σ : Type} (r : Client σ) (req : Request) (w w1 : σ)
    (policy : KubeArmorHostPolicy) (e : GoError)
    (hget : r.Get req.NamespacedName w = (.ok policy, w1))
    (hv : (validationPass policy req).1 = some e) :
    Reconcile r req w =
      ⟨{}, (r.StatusUpdate
          { policy with Status := { policy.Status with PolicyStatus := "Not OK" } } w1).1,
        [.get req.NamespacedName] ++ (validationPass policy req).2.map Event.validate ++
          [.statusUpdate { policy with Status := { policy.Status with PolicyStatus := "Not OK" } },
            .logInfo "Invalid KubeArmorHostPolicy"],
        (r.StatusUpdate
          { policy with Status := { policy.Status with PolicyStatus := "Not OK" } } w1).2⟩ := by
  unfold Reconcile
  rw [hget]
  simp only [hv]

/-- The run of `Reconcile` on a fetched policy without a violation. -/
theorem Reconcile_of_valid {σ : Type} (r : Client σ) (req : Request) (w w1 : σ)
    (policy : KubeArmorHostPolicy)
    (hget : r.Get req.NamespacedName w = (.ok policy, w1))
    (hv : (validationPass policy req).1 = none) :
    Reconcile r req w =
      ⟨{}, none,
        [.get req.NamespacedName] ++ (validationPass policy req).2.map Event.validate ++
          [.statusUpdate { policy with Status := { policy.Status with PolicyStatus := "OK" } },
            .logInfo "Fetched KubeArmorHostPolicy"],
        (r.StatusUpdate
          { policy with Status := { policy.Status with PolicyStatus := "OK" } } w1).2⟩ := by
  unfold Reconcile
  rw [hget]
  simp only [hv]

/-- The run of `Reconcile` when the fetch fails. -/
theorem Reconcile_of_get_error {σ : Type} (r : Client σ) (req : Request) (w w1 : σ)
    (err : GoError) (hget : r.Get req.NamespacedName w = (.error err, w1)) :
    Reconcile r req w =
      ⟨{}, if IsNotFound err then none else some err, [.get req.NamespacedName], w1⟩ := by
  unfold Reconcile
  rw [hget]
  by_cases h : IsNotFound err = true
  · simp [h, IgnoreNotFound]
  · simp [h]

/-- The status written on a fetched policy with a violation is `"Not OK"`. -/
theorem writtenStatuses_of_violation {σ : Type} (r : Client σ) (req : Request) (w w1 : σ)
    (policy : KubeArmorHostPolicy)
    (hget : r.Get req.NamespacedName w = (.ok policy, w1))
    (hv : (validationPass policy req).1 ≠ none) :
    writtenStatuses (Reconcile r req w).events = ["Not OK"] := by
  cases hp : (validationPass policy req).1 with
  | none => exact absurd hp hv
  | some e =>
    unfold writtenStatuses
    rw [Reconcile_of_violation r req w w1 policy e hget hp, statusWrites_run]
    rfl

/-- The status written on a fetched policy without a violation is `"OK"`. -/
theorem writtenStatuses_of_valid {σ : Type} (r : Client σ) (req : Request) (w w1 : σ)
    (policy : KubeArmorHostPolicy)
    (hget : r.Get req.NamespacedName w = (.ok policy, w1))
    (hv : (validationPass policy req).1 = none) :
    writtenStatuses (Reconcile r req w).events = ["OK"] := by
  unfold writtenStatuses
  rw [Reconcile_of_valid r req w w1 policy hget hv, statusWrites_run]
  rfl

theorem storeOps_run (key : NamespacedName) (secs : List Section)
    (policy : KubeArmorHostPolicy) (msg : String) :
    storeOps ([Event.get key] ++ secs.map Event.validate ++
      [Event.statusUpdate policy, Event.logInfo msg]) =
      [Event.get key, Event.statusUpdate policy] := by
  induction secs with
  | nil => rfl
  | cons a l ih => simpa [storeOps] using ih

/-- The validation pass does not read the status of the policy. -/
theorem validationPass_status (policy : KubeArmorHostPolicy) (st : KubeArmorHostPolicyStatus)
    (req : Request) :
    validationPass { policy with Status := st } req = validationPass policy req := rfl

/-- The policy `Reconcile` hands to the status write, for a fetched policy. -/
theorem statusWrites_of_get_ok {σ : Type} (r : Client σ) (req : Request) (w w1 : σ)
    (policy : KubeArmorHostPolicy)
    (hget : r.Get req.NamespacedName w = (.ok policy, w1)) :
    statusWrites (Reconcile r req w).events =
      [{ policy with Status := { policy.Status with PolicyStatus :=
          if (validationPass policy req).1 = none then "OK" else "Not OK" } }] := by
  cases hv : (validationPass policy req).1 with
  | none =>
    rw [Reconcile_of_valid r req w w1 policy hget hv, statusWrites_run]
    simp
  | some e =>
    rw [Reconcile_of_violation r req w w1 policy e hget hv, statusWrites_run]
    simp

/-- The world after a run of `Reconcile` on a fetched policy is the world the
status write leaves. -/
theorem world_of_get_ok {σ : Type} (r : Client σ) (req : Request) (w w1 : σ)
    (policy : KubeArmorHostPolicy)
    (hget : r.Get req.NamespacedName w = (.ok policy, w1)) :
    (Reconcile r req w).world =
      (r.StatusUpdate { policy with Status := { policy.Status with PolicyStatus :=
          if (validationPass policy req).1 = none then "OK" else "Not OK" } } w1).2 := by
  cases hv : (validationPass policy req).1 with
  | none =>
    rw [Reconcile_of_valid r req w w1 policy hget hv]
    simp
  | some e =>
    rw [Reconcile_of_violation r req w w1 policy e hget hv]
    simp

/-! ## Lemmas for the traversal order -/

theorem matchDirectoriesLoop_congr (action : String) (req : Request) :
    ∀ (l l1 : List MatchDirectory),
      l.map MatchDirectory.OwnerOnly = l1.map MatchDirectory.OwnerOnly →
      matchDirectoriesLoop action req l = matchDirectoriesLoop action req l1
  | [], [], _ => rfl
  | [], _ :: _, h => by simp at h
  | _ :: _, [], h => by simp at h
  | a :: l, b :: l1, h => by
    simp only [List.map_cons, List.cons.injEq] at h
    simp only [matchDirectoriesLoop, h.1, matchDirectoriesLoop_congr action req l l1 h.2]

theorem firstViolation_append_some (a b : List (Option GoError)) (e : GoError)
    (h : firstViolation a = some e) : firstViolation (a ++ b) = some e := by
  induction a with
  | nil => simp [firstViolation] at h
  | cons x a ih =>
    cases x with
    | some y => simpa [firstViolation] using h
    | none => simpa [firstViolation] using ih (by simpa [firstViolation] using h)

theorem firstViolation_append_none (a b : List (Option GoError))
    (h : firstViolation a = none) : firstViolation (a ++ b) = firstViolation b := by
  induction a with
  | nil => rfl
  | cons x a ih =>
    cases x with
    | some y => simp [firstViolation] at h
    | none => simpa [firstViolation] using ih (by simpa [firstViolation] using h)

theorem firstViolation_append (a b : List (Option GoError)) :
    firstViolation (a ++ b) =
      match firstViolation a with
      | some e => some e
      | none => firstViolation b := by
  cases h : firstViolation a with
  | some e => exact firstViolation_append_some a b e h
  | none => exact firstViolation_append_none a b h

theorem fromSourceLoop_eq_firstViolation (req : Request) (l : List SourceRef) :
    fromSourceLoop req l = firstViolation (l.map (sourceCheck req)) := by
  induction l with
  | nil => rfl
  | cons a l ih =>
    by_cases h : a.Path = ""
    · simp [fromSourceLoop, sourceCheck, firstViolation, h, ih]
    · simp [fromSourceLoop, sourceCheck, firstViolation, h]

theorem fileFromSourceLoop_eq_firstViolation (req : Request) (l : List SourceRef) :
    fileFromSourceLoop req l = firstViolation (l.map (fileSourceCheck req)) := by
  induction l with
  | nil => rfl
  | cons a l ih =>
    by_cases h : a.Path = ""
    · simp [fileFromSourceLoop, fileSourceCheck, firstViolation, h, ih]
    · by_cases hr : a.Recursive = true
      · simp [fileFromSourceLoop, fileSourceCheck, firstViolation, h, hr]
      · simp [fileFromSourceLoop, fileSourceCheck, firstViolation, h, hr, ih]

theorem processMatchPathsLoop_eq_firstViolation (action : String) (req : Request)
    (l : List MatchPath) :
    processMatchPathsLoop action req l =
      firstViolation (matchPathsTraversal (sourceCheck req) action req l) := by
  induction l with
  | nil => rfl
  | cons a l ih =>
    by_cases h : action ≠ "Allow" ∧ a.OwnerOnly = true
    · simp only [processMatchPathsLoop, matchPathsTraversal, ownerOnlyCheck, if_pos h,
        firstViolation]
    · simp only [processMatchPathsLoop, matchPathsTraversal, ownerOnlyCheck, if_neg h,
        firstViolation, firstViolation_append, ← fromSourceLoop_eq_firstViolation, ih]

theorem fileMatchPathsLoop_eq_firstViolation (action : String) (req : Request)
    (l : List MatchPath) :
    fileMatchPathsLoop action req l =
      firstViolation (matchPathsTraversal (fileSourceCheck req) action req l) := by
  induction l with
  | nil => rfl
  | cons a l ih =>
    by_cases h : action ≠ "Allow" ∧ a.OwnerOnly = true
    · simp only [fileMatchPathsLoop, matchPathsTraversal, ownerOnlyCheck, if_pos h,
        firstViolation]
    · simp only [fileMatchPathsLoop, matchPathsTraversal, ownerOnlyCheck, if_neg h,
        firstViolation, firstViolation_append, ← fileFromSourceLoop_eq_firstViolation, ih]

theorem matchDirectoriesLoop_eq_firstViolation (action : String) (req : Request)
    (l : List MatchDirectory) :
    matchDirectoriesLoop action req l =
      firstViolation (l.map (fun m => ownerOnlyCheck action req m.OwnerOnly)) := by
  induction l with
  | nil => rfl
  | cons a l ih =>
    by_cases h : action ≠ "Allow" ∧ a.OwnerOnly = true
    · simp only [matchDirectoriesLoop, List.map_cons, ownerOnlyCheck, if_pos h, firstViolation]
    · simp only [matchDirectoriesLoop, List.map_cons, ownerOnlyCheck, if_neg h, firstViolation,
        ih]

theorem matchPatternsLoop_eq_firstViolation (action : String) (req : Request)
    (l : List MatchPattern) :
    matchPatternsLoop action req l =
      firstViolation (l.map (fun m => ownerOnlyCheck action req m.OwnerOnly)) := by
  induction l with
  | nil => rfl
  | cons a l ih =>
    by_cases h : action ≠ "Allow" ∧ a.OwnerOnly = true
    · simp only [matchPatternsLoop, List.map_cons, ownerOnlyCheck, if_pos h, firstViolation]
    · simp only [matchPatternsLoop, List.map_cons, ownerOnlyCheck, if_neg h, firstViolation,
        ih]

/-! ## Lemmas on the errors the loops return -/

theorem fromSourceLoop_some (req : Request) (l : List SourceRef) (e : GoError)
    (h : fromSourceLoop req l = some e) :
    e = Errorf "recursive is only effective with directories, not paths " req.NamespacedName ∧
      ∃ s ∈ l, s.Path ≠ "" := by
  induction l with
  | nil => simp [fromSourceLoop] at h
  | cons a l ih =>
    by_cases hp : a.Path = ""
    · simp only [fromSourceLoop, hp, ne_eq, not_true_eq_false, if_false] at h
      obtain ⟨h1, s, hs, h2⟩ := ih h
      exact ⟨h1, s, List.mem_cons_of_mem a hs, h2⟩
    · simp [fromSourceLoop, hp] at h
      exact ⟨h.symm, a, List.mem_cons_self a l, hp⟩

theorem fileFromSourceLoop_some (req : Request) (l : List SourceRef) (e : GoError)
    (h : fileFromSourceLoop req l = some e) :
    e = Errorf "recursive is only effective with directories, not paths " req.NamespacedName ∧
      ∃ s ∈ l, s.Path ≠ "" ∧ s.Recursive = true := by
  induction l with
  | nil => simp [fileFromSourceLoop] at h
  | cons a l ih =>
    by_cases hp : a.Path ≠ "" ∧ a.Recursive = true
    · simp [fileFromSourceLoop, hp.1, hp.2] at h
      exact ⟨h.symm, a, List.mem_cons_self a l, hp⟩
    · have hrest : fileFromSourceLoop req l = some e := by
        by_cases h1 : a.Path = ""
        · simpa [fileFromSourceLoop, h1] using h
        · have h2 : ¬ a.Recursive = true := fun hr => hp ⟨h1, hr⟩
          simpa [fileFromSourceLoop, h1, h2] using h
      obtain ⟨h1, s, hs, h2⟩ := ih hrest
      exact ⟨h1, s, List.mem_cons_of_mem a hs, h2⟩

theorem processMatchPathsLoop_some (action : String) (req : Request) (l : List MatchPath)
    (e : GoError) (h : processMatchPathsLoop action req l = some e) :
    (e = Errorf "ownerOnly works with the Allow action " req.NamespacedName ∧
        action ≠ "Allow" ∧ ∃ m ∈ l, m.OwnerOnly = true) ∨
      (e = Errorf "recursive is only effective with directories, not paths " req.NamespacedName ∧
        ∃ m ∈ l, ∃ s ∈ m.FromSource, s.Path ≠ "") := by
  induction l with
  | nil => simp [processMatchPathsLoop] at h
  | cons a l ih =>
    by_cases ho : action ≠ "Allow" ∧ a.OwnerOnly = true
    · simp only [processMatchPathsLoop, if_pos ho, Option.some.injEq] at h
      exact Or.inl ⟨h.symm, ho.1, a, List.mem_cons_self a l, ho.2⟩
    · simp only [processMatchPathsLoop, if_neg ho] at h
      cases hs : fromSourceLoop req a.FromSource with
      | some e1 =>
        rw [hs] at h
        simp only [Option.some.injEq] at h
        subst h
        obtain ⟨h1, s, hs1, h2⟩ := fromSourceLoop_some req a.FromSource e1 hs
        exact Or.inr ⟨h1, a, List.mem_cons_self a l, s, hs1, h2⟩
      | none =>
        rw [hs] at h
        rcases ih h with ⟨h1, h2, m, hm, h3⟩ | ⟨h1, m, hm, h2⟩
        · exact Or.inl ⟨h1, h2, m, List.mem_cons_of_mem a hm, h3⟩
        · exact Or.inr ⟨h1, m, List.mem_cons_of_mem a hm, h2⟩

theorem fileMatchPathsLoop_some (action : String) (req : Request) (l : List MatchPath)
    (e : GoError) (h : fileMatchPathsLoop action req l = some e) :
    (e = Errorf "ownerOnly works with the Allow action " req.NamespacedName ∧
        action ≠ "Allow" ∧ ∃ m ∈ l, m.OwnerOnly = true) ∨
      (e = Errorf "recursive is only effective with directories, not paths " req.NamespacedName ∧
        ∃ m ∈ l, ∃ s ∈ m.FromSource, s.Path ≠ "" ∧ s.Recursive = true) := by
  induction l with
  | nil => simp [fileMatchPathsLoop] at h
  | cons a l ih =>
    by_cases ho : action ≠ "Allow" ∧ a.OwnerOnly = true
    · simp only [fileMatchPathsLoop, if_pos ho, Option.some.injEq] at h
      exact Or.inl ⟨h.symm, ho.1, a, List.mem_cons_self a l, ho.2⟩
    · simp only [fileMatchPathsLoop, if_neg ho] at h
      cases hs : fileFromSourceLoop req a.FromSource with
      | some e1 =>
        rw [hs] at h
        simp only [Option.some.injEq] at h
        subst h
        obtain ⟨h1, s, hs1, h2⟩ := fileFromSourceLoop_some req a.FromSource e1 hs
        exact Or.inr ⟨h1, a, List.mem_cons_self a l, s, hs1, h2⟩
      | none =>
        rw [hs] at h
        rcases ih h with ⟨h1, h2, m, hm, h3⟩ | ⟨h1, m, hm, h2⟩
        · exact Or.inl ⟨h1, h2, m, List.mem_cons_of_mem a hm, h3⟩
        · exact Or.inr ⟨h1, m, List.mem_cons_of_mem a hm, h2⟩

theorem matchDirectoriesLoop_some (action : String) (req : Request) (l : List MatchDirectory)
    (e : GoError) (h : matchDirectoriesLoop action req l = some e) :
    e = Errorf "ownerOnly works with the Allow action " req.NamespacedName ∧
      action ≠ "Allow" ∧ ∃ m ∈ l, m.OwnerOnly = true := by
  induction l with
  | nil => simp [matchDirectoriesLoop] at h
  | cons a l ih =>
    by_cases ho : action ≠ "Allow" ∧ a.OwnerOnly = true
    · simp only [matchDirectoriesLoop, if_pos ho, Option.some.injEq] at h
      exact ⟨h.symm, ho.1, a, List.mem_cons_self a l, ho.2⟩
    · simp only [matchDirectoriesLoop, if_neg ho] at h
      obtain ⟨h1, h2, m, hm, h3⟩ := ih h
      exact ⟨h1, h2, m, List.mem_cons_of_mem a hm, h3⟩

theorem matchPatternsLoop_some (action : String) (req : Request) (l : List MatchPattern)
    (e : GoError) (h : matchPatternsLoop action req l = some e) :
    e = Errorf "ownerOnly works with the Allow action " req.NamespacedName ∧
      action ≠ "Allow" ∧ ∃ m ∈ l, m.OwnerOnly = true := by
  induction l with
  | nil => simp [matchPatternsLoop] at h
  | cons a l ih =>
    by_cases ho : action ≠ "Allow" ∧ a.OwnerOnly = true
    · simp only [matchPatternsLoop, if_pos ho, Option.some.injEq] at h
      exact ⟨h.symm, ho.1, a, List.mem_cons_self a l, ho.2⟩
    · simp only [matchPatternsLoop, if_neg ho] at h
      obtain ⟨h1, h2, m, hm, h3⟩ := ih h
      exact ⟨h1, h2, m, List.mem_cons_of_mem a hm, h3⟩

theorem matchProtocolsLoop_some (req : Request) (l : List MatchProtocol) (e : GoError)
    (h : matchProtocolsLoop req l = some e) :
    e = Errorf "recursive is only effective with directories, not paths " req.NamespacedName ∧
      ∃ m ∈ l, ∃ s ∈ m.FromSource, s.Path ≠ "" := by
  induction l with
  | nil => simp [matchProtocolsLoop] at h
  | cons a l ih =>
    simp only [matchProtocolsLoop] at h
    cases hs : fromSourceLoop req a.FromSource with
    | some e1 =>
      rw [hs] at h
      simp only [Option.some.injEq] at h
      subst h
      obtain ⟨h1, s, hs1, h2⟩ := fromSourceLoop_some req a.FromSource e1 hs
      exact ⟨h1, a, List.mem_cons_self a l, s, hs1, h2⟩
    | none =>
      rw [hs] at h
      obtain ⟨h1, m, hm, h2⟩ := ih h
      exact ⟨h1, m, List.mem_cons_of_mem a hm, h2⟩

theorem matchCapabilitiesLoop_some (req : Request) (l : List MatchCapability) (e : GoError)
    (h : matchCapabilitiesLoop req l = some e) :
    e = Errorf "recursive is only effective with directories, not paths " req.NamespacedName ∧
      ∃ m ∈ l, ∃ s ∈ m.FromSource, s.Path ≠ "" := by
  induction l with
  | nil => simp [matchCapabilitiesLoop] at h
  | cons a l ih =>
    simp only [matchCapabilitiesLoop] at h
    cases hs : fromSourceLoop req a.FromSource with
    | some e1 =>
      rw [hs] at h
      simp only [Option.some.injEq] at h
      subst h
      obtain ⟨h1, s, hs1, h2⟩ := fromSourceLoop_some req a.FromSource e1 hs
      exact ⟨h1, a, List.mem_cons_self a l, s, hs1, h2⟩
    | none =>
      rw [hs] at h
      obtain ⟨h1, m, hm, h2⟩ := ih h
      exact ⟨h1, m, List.mem_cons_of_mem a hm, h2⟩

/-! ## Lemmas on the action and on the source paths -/

theorem writtenStatuses_of_get_ok {σ : Type} (r : Client σ) (req : Request) (w w1 : σ)
    (policy : KubeArmorHostPolicy)
    (hget : r.Get req.NamespacedName w = (.ok policy, w1)) :
    writtenStatuses (Reconcile r req w).events =
      [if (validationPass policy req).1 = none then "OK" else "Not OK"] := by
  unfold writtenStatuses
  rw [statusWrites_of_get_ok r req w w1 policy hget]
  rfl

theorem processMatchPathsLoop_action (a1 a2 : String) (h1 : a1 ≠ "Allow") (h2 : a2 ≠ "Allow")
    (req : Request) (l : List MatchPath) :
    processMatchPathsLoop a1 req l = processMatchPathsLoop a2 req l := by
  induction l with
  | nil => rfl
  | cons a l ih => simp [processMatchPathsLoop, h1, h2, ih]

theorem fileMatchPathsLoop_action (a1 a2 : String) (h1 : a1 ≠ "Allow") (h2 : a2 ≠ "Allow")
    (req : Request) (l : List MatchPath) :
    fileMatchPathsLoop a1 req l = fileMatchPathsLoop a2 req l := by
  induction l with
  | nil => rfl
  | cons a l ih => simp [fileMatchPathsLoop, h1, h2, ih]

theorem matchDirectoriesLoop_action (a1 a2 : String) (h1 : a1 ≠ "Allow") (h2 : a2 ≠ "Allow")
    (req : Request) (l : List MatchDirectory) :
    matchDirectoriesLoop a1 req l = matchDirectoriesLoop a2 req l := by
  induction l with
  | nil => rfl
  | cons a l ih => simp [matchDirectoriesLoop, h1, h2, ih]

theorem matchPatternsLoop_action (a1 a2 : String) (h1 : a1 ≠ "Allow") (h2 : a2 ≠ "Allow")
    (req : Request) (l : List MatchPattern) :
    matchPatternsLoop a1 req l = matchPatternsLoop a2 req l := by
  induction l with
  | nil => rfl
  | cons a l ih => simp [matchPatternsLoop, h1, h2, ih]

theorem matchProtocolsLoop_paths (req : Request) (l l1 : List MatchProtocol)
    (h : l.map (fun m => m.FromSource.map SourceRef.Path) =
      l1.map (fun m => m.FromSource.map SourceRef.Path)) :
    matchProtocolsLoop req l = matchProtocolsLoop req l1 := by
  have key : ∀ k : List MatchProtocol, (∀ m ∈ k, ∀ s ∈ m.FromSource, s.Path = "") ↔
      ∀ ps ∈ k.map (fun m => m.FromSource.map SourceRef.Path), ∀ x ∈ ps, x = "" := by
    intro k; simp
  cases h1 : matchProtocolsLoop req l with
  | none =>
    have := (matchProtocolsLoop_eq_none req l).1 h1
    rw [key, h, ← key] at this
    exact ((matchProtocolsLoop_eq_none req l1).2 this).symm
  | some e =>
    cases h2 : matchProtocolsLoop req l1 with
    | none =>
      have := (matchProtocolsLoop_eq_none req l1).1 h2
      rw [key, ← h, ← key] at this
      rw [(matchProtocolsLoop_eq_none req l).2 this] at h1
      cases h1
    | some e1 =>
      rw [(matchProtocolsLoop_some req l e h1).1, (matchProtocolsLoop_some req l1 e1 h2).1]

theorem matchCapabilitiesLoop_paths (req : Request) (l l1 : List MatchCapability)
    (h : l.map (fun m => m.FromSource.map SourceRef.Path) =
      l1.map (fun m => m.FromSource.map SourceRef.Path)) :
    matchCapabilitiesLoop req l = matchCapabilitiesLoop req l1 := by
  have key : ∀ k : List MatchCapability, (∀ m ∈ k, ∀ s ∈ m.FromSource, s.Path = "") ↔
      ∀ ps ∈ k.map (fun m => m.FromSource.map SourceRef.Path), ∀ x ∈ ps, x = "" := by
    intro k; simp
  cases h1 : matchCapabilitiesLoop req l with
  | none =>
    have := (matchCapabilitiesLoop_eq_none req l).1 h1
    rw [key, h, ← key] at this
    exact ((matchCapabilitiesLoop_eq_none req l1).2 this).symm
  | some e =>
    cases h2 : matchCapabilitiesLoop req l1 with
    | none =>
      have := (matchCapabilitiesLoop_eq_none req l1).1 h2
      rw [key, ← h, ← key] at this
      rw [(matchCapabilitiesLoop_eq_none req l).2 this] at h1
      cases h1
    | some e1 =>
      rw [(matchCapabilitiesLoop_some req l e h1).1,
        (matchCapabilitiesLoop_some req l1 e1 h2).1]

/-! ## Lemmas on appended rules -/

theorem Appended.exists_mem {α : Type} {R : α → α → Prop} {l l1 : List α}
    (h : Appended R l l1) (m : α) (hm : m ∈ l) : ∃ m1 ∈ l1, R m m1 := by
  obtain ⟨grown, extra, rfl, hf⟩ := h
  have key : ∃ m1 ∈ grown, R m m1 := by
    induction hf with
    | nil => cases hm
    | cons hr _ ih =>
      rcases List.mem_cons.1 hm with hm1 | hm1
      · subst hm1
        exact ⟨_, List.mem_cons_self _ _, hr⟩
      · obtain ⟨m1, h1, h2⟩ := ih hm1
        exact ⟨m1, List.mem_cons_of_mem _ h1, h2⟩
  obtain ⟨m1, h1, h2⟩ := key
  exact ⟨m1, List.mem_append_left extra h1, h2⟩

theorem sourcesAppended.mem {l l1 : List SourceRef} (h : sourcesAppended l l1)
    (s : SourceRef) (hs : s ∈ l) : s ∈ l1 := by
  obtain ⟨extra, rfl⟩ := h
  exact List.mem_append_left extra hs

/-- A policy accepted after rules were appended was accepted before. -/
theorem validationPass_none_of_appended (p p1 : KubeArmorHostPolicy) (req : Request)
    (happ : PolicyAppended p p1) (h : (validationPass p1 req).1 = none) :
    (validationPass p req).1 = none := by
  obtain ⟨hp, hf, hn, hc⟩ := (validationPass_eq_none p1 req).1 h
  obtain ⟨hp1, hp2, hp3⟩ := (validateProcessSchema_eq_none p1 req).1 hp
  obtain ⟨hf1, hf2, hf3⟩ := (validateFileSchema_eq_none p1 req).1 hf
  have hn1 := (validateNetworkSchema_eq_none p1 req).1 hn
  have hc1 := (validateCapabilitiesSchema_eq_none p1 req).1 hc
  rw [happ.action] at hp1 hp2 hp3 hf1 hf2 hf3
  rw [validationPass_eq_none, validateProcessSchema_eq_none, validateFileSchema_eq_none,
    validateNetworkSchema_eq_none, validateCapabilitiesSchema_eq_none]
  refine ⟨⟨?_, ?_, ?_⟩, ⟨?_, ?_, ?_⟩, ?_, ?_⟩
  · intro m hm
    obtain ⟨m1, hm1, ho, hs⟩ := happ.processPaths.exists_mem m hm
    refine ⟨fun hbad => (hp1 m1 hm1).1 ⟨hbad.1, ho.trans hbad.2⟩, fun s hsm => ?_⟩
    exact (hp1 m1 hm1).2 s (hs.mem s hsm)
  · intro m hm hbad
    obtain ⟨m1, hm1, ho, _⟩ := happ.processDirectories.exists_mem m hm
    exact hp2 m1 hm1 ⟨hbad.1, ho.trans hbad.2⟩
  · intro m hm hbad
    obtain ⟨m1, hm1, ho⟩ := happ.processPatterns.exists_mem m hm
    subst ho
    exact hp3 m1 hm1 hbad
  · intro m hm
    obtain ⟨m1, hm1, ho, hs⟩ := happ.filePaths.exists_mem m hm
    refine ⟨fun hbad => (hf1 m1 hm1).1 ⟨hbad.1, ho.trans hbad.2⟩, fun s hsm => ?_⟩
    exact (hf1 m1 hm1).2 s (hs.mem s hsm)
  · intro m hm hbad
    obtain ⟨m1, hm1, ho, _⟩ := happ.fileDirectories.exists_mem m hm
    exact hf2 m1 hm1 ⟨hbad.1, ho.trans hbad.2⟩
  · intro m hm hbad
    obtain ⟨m1, hm1, ho⟩ := happ.filePatterns.exists_mem m hm
    subst ho
    exact hf3 m1 hm1 hbad
  · intro m hm s hsm
    obtain ⟨m1, hm1, hs⟩ := happ.protocols.exists_mem m hm
    exact hn1 m1 hm1 s (hs.mem s hsm)
  · intro m hm s hsm
    obtain ⟨m1, hm1, hs⟩ := happ.capabilities.exists_mem m hm
    exact hc1 m1 hm1 s (hs.mem s hsm)

/-! ## The status written by Reconcile -/

/-- C1: for every policy that `Get` returns successfully, `Reconcile` hands
exactly one policy to the status write; its `status.policyStatus` is `"OK"`
exactly when the four validators all report no violation, `"Not OK"` exactly
when at least one of them reports a violation, and it is never anything
else. -/
theorem reconcile_status_iff_validators {σ : Type} (r : Client σ) (req : Request) (w w1 : σ)
    (policy : KubeArmorHostPolicy)
    (hget : r.Get req.NamespacedName w = (.ok policy, w1)) :
    ∃ written, statusWrites (Reconcile r req w).events = [written] ∧
      (written.Status.PolicyStatus = "OK" ↔
        (validateProcessSchema policy req = none ∧ validateFileSchema policy req = none ∧
          validateNetworkSchema policy req = none ∧
          validateCapabilitiesSchema policy req = none)) ∧
      (written.Status.PolicyStatus = "Not OK" ↔
        (validateProcessSchema policy req ≠ none ∨ validateFileSchema policy req ≠ none ∨
          validateNetworkSchema policy req ≠ none ∨
          validateCapabilitiesSchema policy req ≠ none)) ∧
      (written.Status.PolicyStatus = "OK" ∨ written.Status.PolicyStatus = "Not OK") := by
  have hne : ("Not OK" : String) ≠ "OK" := by decide
  cases hv : (validationPass policy req).1 with
  | none =>
    have hall := (validationPass_eq_none policy req).1 hv
    refine ⟨{ policy with Status := { policy.Status with PolicyStatus := "OK" } }, ?_, ?_, ?_, ?_⟩
    · rw [Reconcile_of_valid r req w w1 policy hget hv]
      exact statusWrites_run _ _ _ _
    · exact ⟨fun _ => hall, fun _ => rfl⟩
    · constructor
      · intro h; exact absurd h.symm hne
      · intro h
        obtain ⟨h1, h2, h3, h4⟩ := hall
        rcases h with h | h | h | h
        · exact absurd h1 h
        · exact absurd h2 h
        · exact absurd h3 h
        · exact absurd h4 h
    · exact Or.inl rfl
  | some e =>
    have hnot : ¬ (validateProcessSchema policy req = none ∧ validateFileSchema policy req = none ∧
        validateNetworkSchema policy req = none ∧
        validateCapabilitiesSchema policy req = none) := by
      intro hall
      have := (validationPass_eq_none policy req).2 hall
      rw [hv] at this; cases this
    refine ⟨{ policy with Status := { policy.Status with PolicyStatus := "Not OK" } },
      ?_, ?_, ?_, ?_⟩
    · rw [Reconcile_of_violation r req w w1 policy e hget hv]
      exact statusWrites_run _ _ _ _
    · constructor
      · intro h; exact absurd h hne
      · intro h; exact absurd h hnot
    · constructor
      · intro _
        by_contra hc
        simp only [not_or, not_not] at hc
        exact hnot hc
      · intro _; rfl
    · exact Or.inr rfl

theorem reconcile_status_iff_validators_witness :
    storeClient.Get sampleRequest.NamespacedName (sampleStore blockOwnerOnlyPolicy) =
        (.ok blockOwnerOnlyPolicy, sampleStore blockOwnerOnlyPolicy) ∧
      ∃ written,
        statusWrites (Reconcile storeClient sampleRequest
          (sampleStore blockOwnerOnlyPolicy)).events = [written] ∧
        written.Status.PolicyStatus = "Not OK" := by
  refine ⟨rfl, ?_⟩
  obtain ⟨written, h1, _, h3, _⟩ :=
    reconcile_status_iff_validators storeClient sampleRequest
      (sampleStore blockOwnerOnlyPolicy) (sampleStore blockOwnerOnlyPolicy)
      blockOwnerOnlyPolicy rfl
  exact ⟨written, h1, h3.2 (Or.inl (by decide))⟩

/-! ## The owner-only rule -/

/-- C2: for every policy whose action is not `"Allow"` and in which some
match-path, match-directory or match-pattern rule of the process section or of
the file section has `ownerOnly = true`, the validation pass reports a
violation, and `Reconcile` on a successful fetch writes the status
`"Not OK"`. -/
theorem ownerOnly_without_allow_is_rejected (policy : KubeArmorHostPolicy) (req : Request)
    (hact : policy.Spec.Action ≠ "Allow")
    (hown : (∃ m ∈ policy.Spec.Process.MatchPaths, m.OwnerOnly = true) ∨
      (∃ m ∈ policy.Spec.Process.MatchDirectories, m.OwnerOnly = true) ∨
      (∃ m ∈ policy.Spec.Process.MatchPatterns, m.OwnerOnly = true) ∨
      (∃ m ∈ policy.Spec.File.MatchPaths, m.OwnerOnly = true) ∨
      (∃ m ∈ policy.Spec.File.MatchDirectories, m.OwnerOnly = true) ∨
      (∃ m ∈ policy.Spec.File.MatchPatterns, m.OwnerOnly = true)) :
    (validationPass policy req).1 ≠ none ∧
      ∀ (σ : Type) (r : Client σ) (w w1 : σ),
        r.Get req.NamespacedName w = (.ok policy, w1) →
          writtenStatuses (Reconcile r req w).events = ["Not OK"] := by
  have hv : (validationPass policy req).1 ≠ none := by
    intro hnone
    obtain ⟨hp, hf, _, _⟩ := (validationPass_eq_none policy req).1 hnone
    obtain ⟨hp1, hp2, hp3⟩ := (validateProcessSchema_eq_none policy req).1 hp
    obtain ⟨hf1, hf2, hf3⟩ := (validateFileSchema_eq_none policy req).1 hf
    rcases hown with ⟨m, hm, ho⟩ | ⟨m, hm, ho⟩ | ⟨m, hm, ho⟩ | ⟨m, hm, ho⟩ | ⟨m, hm, ho⟩ |
      ⟨m, hm, ho⟩
    · exact (hp1 m hm).1 ⟨hact, ho⟩
    · exact hp2 m hm ⟨hact, ho⟩
    · exact hp3 m hm ⟨hact, ho⟩
    · exact (hf1 m hm).1 ⟨hact, ho⟩
    · exact hf2 m hm ⟨hact, ho⟩
    · exact hf3 m hm ⟨hact, ho⟩
  exact ⟨hv, fun σ r w w1 hget => writtenStatuses_of_violation r req w w1 policy hget hv⟩

theorem ownerOnly_without_allow_is_rejected_witness :
    blockOwnerOnlyPolicy.Spec.Action ≠ "Allow" ∧
      (validationPass blockOwnerOnlyPolicy sampleRequest).1 ≠ none ∧
      writtenStatuses (Reconcile storeClient sampleRequest
        (sampleStore blockOwnerOnlyPolicy)).events = ["Not OK"] :=
  have h := ownerOnly_without_allow_is_rejected blockOwnerOnlyPolicy sampleRequest
    (by decide) (Or.inl ⟨{ OwnerOnly := true }, by decide, rfl⟩)
  ⟨by decide, h.1, h.2 Store storeClient (sampleStore blockOwnerOnlyPolicy)
    (sampleStore blockOwnerOnlyPolicy) rfl⟩

/-- C3: for every policy with action `"Allow"`, if no SourceRef of a process
match-path, network match-protocol or capabilities match-capability rule has a
non-empty path, and no SourceRef of a file match-path rule has both a non-empty
path and `recursive = true`, then all four validators report no violation,
whatever the `ownerOnly` values are, and `Reconcile` writes the status
`"OK"`. -/
theorem allow_ownerOnly_is_accepted (policy : KubeArmorHostPolicy) (req : Request)
    (hact : policy.Spec.Action = "Allow")
    (hproc : ∀ m ∈ policy.Spec.Process.MatchPaths, ∀ s ∈ m.FromSource, s.Path = "")
    (hnet : ∀ m ∈ policy.Spec.Network.MatchProtocols, ∀ s ∈ m.FromSource, s.Path = "")
    (hcap : ∀ m ∈ policy.Spec.Capabilities.MatchCapabilities, ∀ s ∈ m.FromSource, s.Path = "")
    (hfile : ∀ m ∈ policy.Spec.File.MatchPaths, ∀ s ∈ m.FromSource,
      ¬ (s.Path ≠ "" ∧ s.Recursive = true)) :
    (validateProcessSchema policy req = none ∧ validateFileSchema policy req = none ∧
      validateNetworkSchema policy req = none ∧
      validateCapabilitiesSchema policy req = none) ∧
      ∀ (σ : Type) (r : Client σ) (w w1 : σ),
        r.Get req.NamespacedName w = (.ok policy, w1) →
          writtenStatuses (Reconcile r req w).events = ["OK"] := by
  have hall : validateProcessSchema policy req = none ∧ validateFileSchema policy req = none ∧
      validateNetworkSchema policy req = none ∧
      validateCapabilitiesSchema policy req = none := by
    refine ⟨?_, ?_, ?_, ?_⟩
    · rw [validateProcessSchema_eq_none]
      exact ⟨fun m hm => ⟨fun h => h.1 hact, hproc m hm⟩, fun m _ h => h.1 hact,
        fun m _ h => h.1 hact⟩
    · rw [validateFileSchema_eq_none]
      exact ⟨fun m hm => ⟨fun h => h.1 hact, hfile m hm⟩, fun m _ h => h.1 hact,
        fun m _ h => h.1 hact⟩
    · rw [validateNetworkSchema_eq_none]; exact hnet
    · rw [validateCapabilitiesSchema_eq_none]; exact hcap
  exact ⟨hall, fun σ r w w1 hget =>
    writtenStatuses_of_valid r req w w1 policy hget ((validationPass_eq_none policy req).2 hall)⟩

theorem allow_ownerOnly_is_accepted_witness :
    allowOwnerOnlyPolicy.Spec.Action = "Allow" ∧
      (validateProcessSchema allowOwnerOnlyPolicy sampleRequest = none ∧
        validateFileSchema allowOwnerOnlyPolicy sampleRequest = none ∧
        validateNetworkSchema allowOwnerOnlyPolicy sampleRequest = none ∧
        validateCapabilitiesSchema allowOwnerOnlyPolicy sampleRequest = none) ∧
      writtenStatuses (Reconcile storeClient sampleRequest
        (sampleStore allowOwnerOnlyPolicy)).events = ["OK"] :=
  have h := allow_ownerOnly_is_accepted allowOwnerOnlyPolicy sampleRequest rfl
    (by decide) (by decide) (by decide) (by decide)
  ⟨rfl, h.1, h.2 Store storeClient (sampleStore allowOwnerOnlyPolicy)
    (sampleStore allowOwnerOnlyPolicy) rfl⟩

/-! ## The source-scoping rule -/

/-- C4: for every policy and every SourceRef with a non-empty path in the
`fromSource` of a process match-path rule, of a network match-protocol rule or
of a capabilities match-capability rule, whatever its `recursive` flag, the
validator of that section reports a violation, the validation pass reports a
violation, and `Reconcile` on a successful fetch writes the status
`"Not OK"`. -/
theorem source_path_is_rejected (policy : KubeArmorHostPolicy) (req : Request)
    (src : SourceRef) (hpath : src.Path ≠ "")
    (hmem : (∃ m ∈ policy.Spec.Process.MatchPaths, src ∈ m.FromSource) ∨
      (∃ m ∈ policy.Spec.Network.MatchProtocols, src ∈ m.FromSource) ∨
      (∃ m ∈ policy.Spec.Capabilities.MatchCapabilities, src ∈ m.FromSource)) :
    ((∃ m ∈ policy.Spec.Process.MatchPaths, src ∈ m.FromSource) →
        validateProcessSchema policy req ≠ none) ∧
      ((∃ m ∈ policy.Spec.Network.MatchProtocols, src ∈ m.FromSource) →
        validateNetworkSchema policy req ≠ none) ∧
      ((∃ m ∈ policy.Spec.Capabilities.MatchCapabilities, src ∈ m.FromSource) →
        validateCapabilitiesSchema policy req ≠ none) ∧
      (validationPass policy req).1 ≠ none ∧
      ∀ (σ : Type) (r : Client σ) (w w1 : σ),
        r.Get req.NamespacedName w = (.ok policy, w1) →
          writtenStatuses (Reconcile r req w).events = ["Not OK"] := by
  have hp : (∃ m ∈ policy.Spec.Process.MatchPaths, src ∈ m.FromSource) →
      validateProcessSchema policy req ≠ none := by
    rintro ⟨m, hm, hs⟩ hnone
    exact hpath ((((validateProcessSchema_eq_none policy req).1 hnone).1 m hm).2 src hs)
  have hn : (∃ m ∈ policy.Spec.Network.MatchProtocols, src ∈ m.FromSource) →
      validateNetworkSchema policy req ≠ none := by
    rintro ⟨m, hm, hs⟩ hnone
    exact hpath ((validateNetworkSchema_eq_none policy req).1 hnone m hm src hs)
  have hc : (∃ m ∈ policy.Spec.Capabilities.MatchCapabilities, src ∈ m.FromSource) →
      validateCapabilitiesSchema policy req ≠ none := by
    rintro ⟨m, hm, hs⟩ hnone
    exact hpath ((validateCapabilitiesSchema_eq_none policy req).1 hnone m hm src hs)
  have hv : (validationPass policy req).1 ≠ none := by
    intro hnone
    obtain ⟨h1, _, h3, h4⟩ := (validationPass_eq_none policy req).1 hnone
    rcases hmem with h | h | h
    · exact hp h h1
    · exact hn h h3
    · exact hc h h4
  exact ⟨hp, hn, hc, hv,
    fun σ r w w1 hget => writtenStatuses_of_violation r req w w1 policy hget hv⟩

theorem source_path_is_rejected_witness :
    validateNetworkSchema allowNetworkSourcePolicy sampleRequest ≠ none ∧
      (validationPass allowNetworkSourcePolicy sampleRequest).1 ≠ none ∧
      writtenStatuses (Reconcile storeClient sampleRequest
        (sampleStore allowNetworkSourcePolicy)).events = ["Not OK"] :=
  have hex : ∃ m ∈ allowNetworkSourcePolicy.Spec.Network.MatchProtocols,
      ({ Path := "/bin/app", Recursive := false } : SourceRef) ∈ m.FromSource :=
    ⟨{ FromSource := [{ Path := "/bin/app", Recursive := false }] }, by decide, by decide⟩
  have h := source_path_is_rejected allowNetworkSourcePolicy sampleRequest
    { Path := "/bin/app", Recursive := false } (by decide) (Or.inr (Or.inl hex))
  ⟨h.2.1 hex, h.2.2.2.1, h.2.2.2.2 Store storeClient (sampleStore allowNetworkSourcePolicy)
    (sampleStore allowNetworkSourcePolicy) rfl⟩

/-- C5: for every policy in which no file rule triggers the owner-only
violation (the action is `"Allow"`, or no file rule has `ownerOnly = true`),
`validateFileSchema` reports a violation if and only if some SourceRef of a file
match-path rule has a non-empty path and `recursive = true`. In particular the
policy `{action: Allow, file.matchPaths: [{fromSource: [{path: "/bin/app",
recursive: false}]}]}` gets the status `"OK"` on every successful fetch. -/
theorem file_source_violation_iff :
    (∀ (policy : KubeArmorHostPolicy) (req : Request),
      (policy.Spec.Action = "Allow" ∨
        ((∀ m ∈ policy.Spec.File.MatchPaths, m.OwnerOnly = false) ∧
          (∀ m ∈ policy.Spec.File.MatchDirectories, m.OwnerOnly = false) ∧
          (∀ m ∈ policy.Spec.File.MatchPatterns, m.OwnerOnly = false))) →
      (validateFileSchema policy req ≠ none ↔
        ∃ m ∈ policy.Spec.File.MatchPaths, ∃ s ∈ m.FromSource,
          s.Path ≠ "" ∧ s.Recursive = true)) ∧
    (∀ (σ : Type) (r : Client σ) (req : Request) (w w1 : σ),
      r.Get req.NamespacedName w = (.ok allowFileSourcePolicy, w1) →
        writtenStatuses (Reconcile r req w).events = ["OK"]) := by
  constructor
  · intro policy req hown
    have hno1 : ∀ m ∈ policy.Spec.File.MatchPaths,
        ¬ (policy.Spec.Action ≠ "Allow" ∧ m.OwnerOnly = true) := by
      intro m hm h
      rcases hown with ha | ⟨h1, _, _⟩
      · exact h.1 ha
      · rw [h1 m hm] at h; exact Bool.false_ne_true h.2
    have hno2 : ∀ m ∈ policy.Spec.File.MatchDirectories,
        ¬ (policy.Spec.Action ≠ "Allow" ∧ m.OwnerOnly = true) := by
      intro m hm h
      rcases hown with ha | ⟨_, h2, _⟩
      · exact h.1 ha
      · rw [h2 m hm] at h; exact Bool.false_ne_true h.2
    have hno3 : ∀ m ∈ policy.Spec.File.MatchPatterns,
        ¬ (policy.Spec.Action ≠ "Allow" ∧ m.OwnerOnly = true) := by
      intro m hm h
      rcases hown with ha | ⟨_, _, h3⟩
      · exact h.1 ha
      · rw [h3 m hm] at h; exact Bool.false_ne_true h.2
    rw [Ne, validateFileSchema_eq_none]
    constructor
    · intro hnot
      by_contra hex
      apply hnot
      refine ⟨fun m hm => ⟨hno1 m hm, fun s hs hbad => hex ⟨m, hm, s, hs, hbad⟩⟩, hno2, hno3⟩
    · rintro ⟨m, hm, s, hs, hbad⟩ hall
      exact (hall.1 m hm).2 s hs hbad
  · intro σ r req w w1 hget
    have hv : (validationPass allowFileSourcePolicy req).1 = none := by
      rw [validationPass_eq_none, validateProcessSchema_eq_none, validateFileSchema_eq_none,
        validateNetworkSchema_eq_none, validateCapabilitiesSchema_eq_none]
      simp [allowFileSourcePolicy]
    exact writtenStatuses_of_valid r req w w1 allowFileSourcePolicy hget hv

theorem file_source_violation_iff_witness :
    (allowFileSourcePolicy.Spec.Action = "Allow" ∨
        ((∀ m ∈ allowFileSourcePolicy.Spec.File.MatchPaths, m.OwnerOnly = false) ∧
          (∀ m ∈ allowFileSourcePolicy.Spec.File.MatchDirectories, m.OwnerOnly = false) ∧
          (∀ m ∈ allowFileSourcePolicy.Spec.File.MatchPatterns, m.OwnerOnly = false))) ∧
      (validateFileSchema allowFileSourcePolicy sampleRequest ≠ none ↔
        ∃ m ∈ allowFileSourcePolicy.Spec.File.MatchPaths, ∃ s ∈ m.FromSource,
          s.Path ≠ "" ∧ s.Recursive = true) ∧
      validateFileSchema allowFileSourcePolicy sampleRequest = none ∧
      writtenStatuses (Reconcile storeClient sampleRequest
        (sampleStore allowFileSourcePolicy)).events = ["OK"] :=
  ⟨Or.inl rfl,
    file_source_violation_iff.1 allowFileSourcePolicy sampleRequest (Or.inl rfl),
    by decide,
    file_source_violation_iff.2 Store storeClient sampleRequest
      (sampleStore allowFileSourcePolicy) (sampleStore allowFileSourcePolicy) rfl⟩

/-! ## Short-circuit order of the validation pass -/

/-- C6: the validation pass ends with the violation of the first section, in
the order process, file, network, capabilities, whose validator reports one,
and calls no validator after it. For a policy whose process section is in
violation the result is exactly what `validateProcessSchema` returns, only the
process validator is called, and the result is the same after any change of the
file, network and capabilities sections. -/
theorem validationPass_first_violation (policy : KubeArmorHostPolicy) (req : Request) :
    (∀ e, validateProcessSchema policy req = some e →
      validationPass policy req = (some e, [Section.process]) ∧
      (∀ (file : FileType) (network : NetworkType) (capabilities : CapabilitiesType),
        validationPass
          { policy with Spec := { policy.Spec with
              File := file, Network := network, Capabilities := capabilities } } req =
          (some e, [Section.process])) ∧
      (∀ (σ : Type) (r : Client σ) (w w1 : σ),
        r.Get req.NamespacedName w = (.ok policy, w1) →
          validatedSections (Reconcile r req w).events = [Section.process])) ∧
    (∀ e, validateProcessSchema policy req = none → validateFileSchema policy req = some e →
      validationPass policy req = (some e, [Section.process, Section.file])) ∧
    (∀ e, validateProcessSchema policy req = none → validateFileSchema policy req = none →
      validateNetworkSchema policy req = some e →
      validationPass policy req = (some e, [Section.process, Section.file, Section.network])) ∧
    (validateProcessSchema policy req = none → validateFileSchema policy req = none →
      validateNetworkSchema policy req = none →
      validationPass policy req =
        (validateCapabilitiesSchema policy req,
          [Section.process, Section.file, Section.network, Section.capabilities])) := by
  refine ⟨?_, ?_, ?_, ?_⟩
  · intro e he
    have hpass : validationPass policy req = (some e, [Section.process]) := by
      simp only [validationPass, he]
    refine ⟨hpass, ?_, ?_⟩
    · intro file network capabilities
      have he1 : validateProcessSchema
          { policy with Spec := { policy.Spec with
              File := file, Network := network, Capabilities := capabilities } } req = some e := he
      simp only [validationPass, he1]
    · intro σ r w w1 hget
      have hv : (validationPass policy req).1 = some e := by rw [hpass]
      rw [Reconcile_of_violation r req w w1 policy e hget hv, validatedSections_run, hpass]
  · intro e hp hf
    simp only [validationPass, hp, hf]
  · intro e hp hf hn
    simp only [validationPass, hp, hf, hn]
  · intro hp hf hn
    simp only [validationPass, hp, hf, hn]

theorem validationPass_first_violation_witness :
    validateFileSchema blockBothSectionsPolicy sampleRequest ≠ none ∧
      validationPass blockBothSectionsPolicy sampleRequest =
        (some (Errorf "ownerOnly works with the Allow action " sampleRequest.NamespacedName),
          [Section.process]) ∧
      validatedSections (Reconcile storeClient sampleRequest
        (sampleStore blockBothSectionsPolicy)).events = [Section.process] :=
  have h := (validationPass_first_violation blockBothSectionsPolicy sampleRequest).1
    (Errorf "ownerOnly works with the Allow action " sampleRequest.NamespacedName) rfl
  ⟨by decide, h.1, h.2.2 Store storeClient (sampleStore blockBothSectionsPolicy)
    (sampleStore blockBothSectionsPolicy) rfl⟩

/-! ## Errors returned by Reconcile -/

/-- C7: for every reference whose `Get` fails with a not-found error,
`Reconcile` returns the empty result and a nil error, and the only call it
makes is the `Get`: no validation, no status write. -/
theorem reconcile_not_found_is_success {σ : Type} (r : Client σ) (req : Request) (w w1 : σ)
    (err : GoError) (hget : r.Get req.NamespacedName w = (.error err, w1))
    (hnf : IsNotFound err = true) :
    (Reconcile r req w).result = {} ∧ (Reconcile r req w).err = none ∧
      (Reconcile r req w).events = [Event.get req.NamespacedName] ∧
      statusWrites (Reconcile r req w).events = [] ∧
      (Reconcile r req w).world = w1 := by
  rw [Reconcile_of_get_error r req w w1 err hget]
  simp [hnf, statusWrites]

theorem reconcile_not_found_is_success_witness :
    IsNotFound (Store.notFound sampleRequest.NamespacedName) = true ∧
      (Reconcile storeClient sampleRequest { key := sampleRequest.NamespacedName }).result = {} ∧
      (Reconcile storeClient sampleRequest { key := sampleRequest.NamespacedName }).err = none ∧
      statusWrites
        (Reconcile storeClient sampleRequest { key := sampleRequest.NamespacedName }).events = [] :=
  have h := reconcile_not_found_is_success storeClient sampleRequest
    { key := sampleRequest.NamespacedName } { key := sampleRequest.NamespacedName }
    (Store.notFound sampleRequest.NamespacedName) rfl (by decide)
  ⟨by decide, h.1, h.2.1, h.2.2.2.1⟩

/-- C8: for every reference whose `Get` fails with an error other than
not-found, `Reconcile` returns exactly that error, and the only call it makes
is the `Get`: it runs no validation and performs no status write. -/
theorem reconcile_get_error_is_returned {σ : Type} (r : Client σ) (req : Request) (w w1 : σ)
    (err : GoError) (hget : r.Get req.NamespacedName w = (.error err, w1))
    (hnf : IsNotFound err = false) :
    (Reconcile r req w).err = some err ∧
      (Reconcile r req w).events = [Event.get req.NamespacedName] ∧
      validatedSections (Reconcile r req w).events = [] ∧
      statusWrites (Reconcile r req w).events = [] := by
  rw [Reconcile_of_get_error r req w w1 err hget]
  simp [hnf, statusWrites, validatedSections]

theorem reconcile_get_error_is_returned_witness :
    IsNotFound conflictError = false ∧
      (Reconcile storeClient sampleRequest
        { sampleStore blockOwnerOnlyPolicy with getFault := some conflictError }).err =
          some conflictError ∧
      statusWrites (Reconcile storeClient sampleRequest
        { sampleStore blockOwnerOnlyPolicy with getFault := some conflictError }).events = [] :=
  have h := reconcile_get_error_is_returned storeClient sampleRequest
    { sampleStore blockOwnerOnlyPolicy with getFault := some conflictError }
    { sampleStore blockOwnerOnlyPolicy with getFault := some conflictError }
    conflictError rfl (by decide)
  ⟨by decide, h.1, h.2.2.2⟩

/-- C9: for every successfully fetched policy on which validation finds a
violation, the error `Reconcile` returns is the result of the status write of
`"Not OK"`: it is non-nil if and only if the write fails, it is then the
write's error, and it is nil whenever the write succeeds. -/
theorem reconcile_violation_returns_write_error {σ : Type} (r : Client σ) (req : Request)
    (w w1 : σ) (policy : KubeArmorHostPolicy)
    (hget : r.Get req.NamespacedName w = (.ok policy, w1))
    (hviol : validateProcessSchema policy req ≠ none ∨ validateFileSchema policy req ≠ none ∨
      validateNetworkSchema policy req ≠ none ∨ validateCapabilitiesSchema policy req ≠ none) :
    statusWrites (Reconcile r req w).events =
        [{ policy with Status := { policy.Status with PolicyStatus := "Not OK" } }] ∧
      (Reconcile r req w).err =
        (r.StatusUpdate
          { policy with Status := { policy.Status with PolicyStatus := "Not OK" } } w1).1 ∧
      ((Reconcile r req w).err ≠ none ↔
        (r.StatusUpdate
          { policy with Status := { policy.Status with PolicyStatus := "Not OK" } } w1).1 ≠
            none) ∧
      ((r.StatusUpdate
          { policy with Status := { policy.Status with PolicyStatus := "Not OK" } } w1).1 = none →
        (Reconcile r req w).err = none) := by
  cases hv : (validationPass policy req).1 with
  | none =>
    obtain ⟨h1, h2, h3, h4⟩ := (validationPass_eq_none policy req).1 hv
    rcases hviol with h | h | h | h
    · exact absurd h1 h
    · exact absurd h2 h
    · exact absurd h3 h
    · exact absurd h4 h
  | some e =>
    rw [Reconcile_of_violation r req w w1 policy e hget hv]
    exact ⟨statusWrites_run _ _ _ _, rfl, Iff.rfl, fun h => h⟩

theorem reconcile_violation_returns_write_error_witness :
    validateProcessSchema blockOwnerOnlyPolicy sampleRequest ≠ none ∧
      (Reconcile storeClient sampleRequest
        { sampleStore blockOwnerOnlyPolicy with updateFault := some conflictError }).err =
          some conflictError ∧
      (Reconcile storeClient sampleRequest (sampleStore blockOwnerOnlyPolicy)).err = none :=
  have h := reconcile_violation_returns_write_error storeClient sampleRequest
    { sampleStore blockOwnerOnlyPolicy with updateFault := some conflictError }
    { sampleStore blockOwnerOnlyPolicy with updateFault := some conflictError }
    blockOwnerOnlyPolicy rfl (Or.inl (by decide))
  ⟨by decide, h.2.1, rfl⟩

/-- C10: for every successfully fetched policy on which no validator finds a
violation, `Reconcile` hands the policy with status `"OK"` to the status write
and returns the empty result and a nil error, whatever the write answers. -/
theorem reconcile_valid_swallows_write_error {σ : Type} (r : Client σ) (req : Request)
    (w w1 : σ) (policy : KubeArmorHostPolicy)
    (hget : r.Get req.NamespacedName w = (.ok policy, w1))
    (hvalid : validateProcessSchema policy req = none ∧ validateFileSchema policy req = none ∧
      validateNetworkSchema policy req = none ∧ validateCapabilitiesSchema policy req = none) :
    statusWrites (Reconcile r req w).events =
        [{ policy with Status := { policy.Status with PolicyStatus := "OK" } }] ∧
      (Reconcile r req w).err = none ∧ (Reconcile r req w).result = {} := by
  rw [Reconcile_of_valid r req w w1 policy hget ((validationPass_eq_none policy req).2 hvalid)]
  exact ⟨statusWrites_run _ _ _ _, rfl, rfl⟩

theorem reconcile_valid_swallows_write_error_witness :
    storeClient.StatusUpdate
        { allowOwnerOnlyPolicy with Status := { PolicyStatus := "OK" } }
        { sampleStore allowOwnerOnlyPolicy with updateFault := some conflictError } =
        (some conflictError,
          { sampleStore allowOwnerOnlyPolicy with updateFault := some conflictError }) ∧
      (Reconcile storeClient sampleRequest
        { sampleStore allowOwnerOnlyPolicy with updateFault := some conflictError }).err = none ∧
      (Reconcile storeClient sampleRequest (sampleStore allowOwnerOnlyPolicy)).err = none :=
  have h := reconcile_valid_swallows_write_error storeClient sampleRequest
    { sampleStore allowOwnerOnlyPolicy with updateFault := some conflictError }
    { sampleStore allowOwnerOnlyPolicy with updateFault := some conflictError }
    allowOwnerOnlyPolicy rfl (by decide)
  have h0 := reconcile_valid_swallows_write_error storeClient sampleRequest
    (sampleStore allowOwnerOnlyPolicy) (sampleStore allowOwnerOnlyPolicy)
    allowOwnerOnlyPolicy rfl (by decide)
  ⟨rfl, h.2.1, h0.2.1⟩

/-! ## Idempotence, frame and store operations -/

/-- C11: reconciliation is idempotent on the status. The validation pass does
not depend on the previous `status.policyStatus`; when the store returns, after
a first run, the policy that run wrote, a second run hands the very same policy
(same status) to the status write; on the in-memory store a second run
writes the same status and leaves the stored policy unchanged; and for every
policy and every previous status, `Reconcile` on the policy carrying that
status hands the same policy, with the same status, to the status write as
`Reconcile` on the policy itself, and returns the same error when the two
writes answer alike. -/
theorem reconcile_idempotent :
    (∀ (policy : KubeArmorHostPolicy) (st : KubeArmorHostPolicyStatus) (req : Request),
      validationPass { policy with Status := st } req = validationPass policy req) ∧
    (∀ (σ : Type) (r : Client σ) (req : Request) (w w1 w3 : σ)
      (policy written : KubeArmorHostPolicy),
      r.Get req.NamespacedName w = (.ok policy, w1) →
      statusWrites (Reconcile r req w).events = [written] →
      r.Get req.NamespacedName (Reconcile r req w).world = (.ok written, w3) →
      statusWrites (Reconcile r req (Reconcile r req w).world).events = [written]) ∧
    (∀ (req : Request) (policy : KubeArmorHostPolicy),
      writtenStatuses (Reconcile storeClient req
          (Reconcile storeClient req
            { key := req.NamespacedName, object := some policy }).world).events =
        writtenStatuses (Reconcile storeClient req
          { key := req.NamespacedName, object := some policy }).events ∧
      (Reconcile storeClient req
          (Reconcile storeClient req
            { key := req.NamespacedName, object := some policy }).world).world =
        (Reconcile storeClient req
          { key := req.NamespacedName, object := some policy }).world) ∧
    (∀ (σ τ : Type) (r1 : Client σ) (r2 : Client τ) (req : Request) (w w1 : σ) (v v1 : τ)
      (policy : KubeArmorHostPolicy) (st : KubeArmorHostPolicyStatus),
      r1.Get req.NamespacedName w = (.ok policy, w1) →
      r2.Get req.NamespacedName v = (.ok { policy with Status := st }, v1) →
      statusWrites (Reconcile r2 req v).events = statusWrites (Reconcile r1 req w).events ∧
      writtenStatuses (Reconcile r2 req v).events =
        writtenStatuses (Reconcile r1 req w).events ∧
      validatedSections (Reconcile r2 req v).events =
        validatedSections (Reconcile r1 req w).events ∧
      (∀ written, statusWrites (Reconcile r1 req w).events = [written] →
        (r2.StatusUpdate written v1).1 = (r1.StatusUpdate written w1).1 →
        (Reconcile r2 req v).err = (Reconcile r1 req w).err)) := by
  refine ⟨fun policy st req => rfl, ?_, ?_, ?_⟩
  · intro σ r req w w1 w3 policy written hget hw hget2
    rw [statusWrites_of_get_ok r req w w1 policy hget] at hw
    have hwr := (List.cons.inj hw).1
    rw [statusWrites_of_get_ok r req _ w3 written hget2]
    subst hwr
    rfl
  · intro req policy
    have hget : storeClient.Get req.NamespacedName
        { key := req.NamespacedName, object := some policy } =
        (.ok policy, { key := req.NamespacedName, object := some policy }) := by
      simp [storeClient]
    have hworld := world_of_get_ok storeClient req _ _ policy hget
    have hw1 : (Reconcile storeClient req
        { key := req.NamespacedName, object := some policy }).world =
        { key := req.NamespacedName,
          object := some { policy with Status := { policy.Status with PolicyStatus :=
            if (validationPass policy req).1 = none then "OK" else "Not OK" } } } := by
      rw [hworld]; simp [storeClient]
    have hget2 : storeClient.Get req.NamespacedName
        { key := req.NamespacedName,
          object := some { policy with Status := { policy.Status with PolicyStatus :=
            if (validationPass policy req).1 = none then "OK" else "Not OK" } } } =
        (.ok { policy with Status := { policy.Status with PolicyStatus :=
            if (validationPass policy req).1 = none then "OK" else "Not OK" } },
          { key := req.NamespacedName,
            object := some { policy with Status := { policy.Status with PolicyStatus :=
              if (validationPass policy req).1 = none then "OK" else "Not OK" } } }) := by
      simp [storeClient]
    rw [hw1]
    constructor
    · unfold writtenStatuses
      rw [statusWrites_of_get_ok storeClient req _ _ _ hget2,
        statusWrites_of_get_ok storeClient req _ _ _ hget]
      rfl
    · rw [world_of_get_ok storeClient req _ _ _ hget2]
      simp only [storeClient]
      rfl
  · intro σ τ r1 r2 req w w1 v v1 policy st hg1 hg2
    cases hv : (validationPass policy req).1 with
    | none =>
      have hv2 : (validationPass { policy with Status := st } req).1 = none := hv
      rw [Reconcile_of_valid r1 req w w1 policy hg1 hv,
        Reconcile_of_valid r2 req v v1 _ hg2 hv2]
      refine ⟨?_, ?_, ?_, ?_⟩
      · rw [statusWrites_run, statusWrites_run]
      · unfold writtenStatuses
        rw [statusWrites_run, statusWrites_run]
      · rw [validatedSections_run, validatedSections_run]
        rfl
      · intro written _ _
        rfl
    | some e =>
      have hv2 : (validationPass { policy with Status := st } req).1 = some e := hv
      rw [Reconcile_of_violation r1 req w w1 policy e hg1 hv,
        Reconcile_of_violation r2 req v v1 _ e hg2 hv2]
      refine ⟨?_, ?_, ?_, ?_⟩
      · rw [statusWrites_run, statusWrites_run]
      · unfold writtenStatuses
        rw [statusWrites_run, statusWrites_run]
      · rw [validatedSections_run, validatedSections_run]
        rfl
      · intro written hw hupd
        rw [statusWrites_run] at hw
        have hwr := (List.cons.inj hw).1
        subst hwr
        exact hupd

theorem reconcile_idempotent_witness :
    statusWrites (Reconcile storeClient sampleRequest
        (sampleStore blockOwnerOnlyPolicy)).events =
        [{ blockOwnerOnlyPolicy with Status := { PolicyStatus := "Not OK" } }] ∧
      statusWrites (Reconcile storeClient sampleRequest
        (Reconcile storeClient sampleRequest (sampleStore blockOwnerOnlyPolicy)).world).events =
        [{ blockOwnerOnlyPolicy with Status := { PolicyStatus := "Not OK" } }] ∧
      (Reconcile storeClient sampleRequest
          (Reconcile storeClient sampleRequest (sampleStore blockOwnerOnlyPolicy)).world).world =
        (Reconcile storeClient sampleRequest (sampleStore blockOwnerOnlyPolicy)).world ∧
      writtenStatuses (Reconcile storeClient sampleRequest
        (sampleStore { blockOwnerOnlyPolicy with Status := { PolicyStatus := "OK" } })).events =
        writtenStatuses (Reconcile storeClient sampleRequest
          (sampleStore blockOwnerOnlyPolicy)).events ∧
      writtenStatuses (Reconcile storeClient sampleRequest
        (sampleStore { blockOwnerOnlyPolicy with Status := { PolicyStatus := "OK" } })).events =
        ["Not OK"] :=
  ⟨rfl,
    reconcile_idempotent.2.1 Store storeClient sampleRequest (sampleStore blockOwnerOnlyPolicy)
      (sampleStore blockOwnerOnlyPolicy)
      (Reconcile storeClient sampleRequest (sampleStore blockOwnerOnlyPolicy)).world
      blockOwnerOnlyPolicy { blockOwnerOnlyPolicy with Status := { PolicyStatus := "Not OK" } }
      rfl rfl rfl,
    (reconcile_idempotent.2.2.1 sampleRequest blockOwnerOnlyPolicy).2,
    (reconcile_idempotent.2.2.2 Store Store storeClient storeClient sampleRequest
      (sampleStore blockOwnerOnlyPolicy) (sampleStore blockOwnerOnlyPolicy)
      (sampleStore { blockOwnerOnlyPolicy with Status := { PolicyStatus := "OK" } })
      (sampleStore { blockOwnerOnlyPolicy with Status := { PolicyStatus := "OK" } })
      blockOwnerOnlyPolicy { PolicyStatus := "OK" } rfl rfl).2.1,
    rfl⟩

/-- C12: for every successfully fetched policy, the policy `Reconcile` passes
to the status write equals the fetched policy in every field except
`status.policyStatus`: the action and the process, file, network and
capabilities sections are unchanged. -/
theorem reconcile_changes_only_status {σ : Type} (r : Client σ) (req : Request) (w w1 : σ)
    (policy : KubeArmorHostPolicy)
    (hget : r.Get req.NamespacedName w = (.ok policy, w1)) :
    ∃ written, statusWrites (Reconcile r req w).events = [written] ∧
      written = { policy with
        Status := { policy.Status with PolicyStatus := written.Status.PolicyStatus } } ∧
      written.Spec = policy.Spec ∧
      written.Spec.Action = policy.Spec.Action ∧
      written.Spec.Process = policy.Spec.Process ∧
      written.Spec.File = policy.Spec.File ∧
      written.Spec.Network = policy.Spec.Network ∧
      written.Spec.Capabilities = policy.Spec.Capabilities :=
  ⟨_, statusWrites_of_get_ok r req w w1 policy hget, rfl, rfl, rfl, rfl, rfl, rfl, rfl⟩

theorem reconcile_changes_only_status_witness :
    ∃ written,
      statusWrites (Reconcile storeClient sampleRequest
        (sampleStore blockBothSectionsPolicy)).events = [written] ∧
      written.Spec = blockBothSectionsPolicy.Spec :=
  have ⟨written, h1, _, h3, _⟩ := reconcile_changes_only_status storeClient sampleRequest
    (sampleStore blockBothSectionsPolicy) (sampleStore blockBothSectionsPolicy)
    blockBothSectionsPolicy rfl
  ⟨written, h1, h3⟩

/-- C13: in every run of `Reconcile` the object-store operations are one `Get`
followed by at most one status update: no delete is ever issued, the status
update is issued exactly once when the `Get` succeeded and not at all when it
failed. -/
theorem reconcile_store_operations {σ : Type} (r : Client σ) (req : Request) (w : σ) :
    (∀ policy, Event.delete policy ∉ (Reconcile r req w).events) ∧
    (∀ policy w1, r.Get req.NamespacedName w = (.ok policy, w1) →
      ∃ written, storeOps (Reconcile r req w).events =
        [Event.get req.NamespacedName, Event.statusUpdate written]) ∧
    (∀ err w1, r.Get req.NamespacedName w = (.error err, w1) →
      storeOps (Reconcile r req w).events = [Event.get req.NamespacedName]) := by
  refine ⟨?_, ?_, ?_⟩
  · intro p
    cases hget : r.Get req.NamespacedName w with
    | mk res w1 =>
      cases res with
      | error err =>
        rw [Reconcile_of_get_error r req w w1 err hget]
        simp
      | ok policy =>
        cases hv : (validationPass policy req).1 with
        | none =>
          rw [Reconcile_of_valid r req w w1 policy hget hv]
          simp
        | some e =>
          rw [Reconcile_of_violation r req w w1 policy e hget hv]
          simp
  · intro policy w1 hget
    cases hv : (validationPass policy req).1 with
    | none =>
      rw [Reconcile_of_valid r req w w1 policy hget hv]
      exact ⟨_, storeOps_run _ _ _ _⟩
    | some e =>
      rw [Reconcile_of_violation r req w w1 policy e hget hv]
      exact ⟨_, storeOps_run _ _ _ _⟩
  · intro err w1 hget
    rw [Reconcile_of_get_error r req w w1 err hget]
    rfl

theorem reconcile_store_operations_witness :
    (∃ written, storeOps (Reconcile storeClient sampleRequest
        (sampleStore blockOwnerOnlyPolicy)).events =
        [Event.get sampleRequest.NamespacedName, Event.statusUpdate written]) ∧
      storeOps (Reconcile storeClient sampleRequest
        { key := sampleRequest.NamespacedName }).events =
        [Event.get sampleRequest.NamespacedName] :=
  have h := reconcile_store_operations storeClient sampleRequest
    (sampleStore blockOwnerOnlyPolicy)
  have h0 := reconcile_store_operations storeClient sampleRequest
    { key := sampleRequest.NamespacedName }
  ⟨h.2.1 blockOwnerOnlyPolicy (sampleStore blockOwnerOnlyPolicy) rfl,
    h0.2.2 (Store.notFound sampleRequest.NamespacedName)
    { key := sampleRequest.NamespacedName } rfl⟩

/-! ## Match-directory rules and the traversal order -/

/-- C14, as stated, fails: a policy whose process and file match-directory
rules carry a source with a non-empty path and `recursive = true` is accepted by
`validateProcessSchema` and by `validateFileSchema`. -/
theorem directory_sources_not_checked :
    (∃ m ∈ allowDirectorySourcePolicy.Spec.Process.MatchDirectories,
        ∃ s ∈ m.FromSource, s.Path ≠ "") ∧
      validateProcessSchema allowDirectorySourcePolicy sampleRequest = none ∧
      (∃ m ∈ allowDirectorySourcePolicy.Spec.File.MatchDirectories,
        ∃ s ∈ m.FromSource, s.Path ≠ "" ∧ s.Recursive = true) ∧
      validateFileSchema allowDirectorySourcePolicy sampleRequest = none := by
  decide

/-- C14, amended: the source-scoping rule applies to match-path rules only. The
validators check a match-directory rule for `ownerOnly` alone and never read
its `fromSource`: replacing the match-directory rules of the process and of the
file section by rules with the same `ownerOnly` flags, whatever their sources,
changes the result of none of the four validators. -/
theorem directory_sources_ignored (policy : KubeArmorHostPolicy) (req : Request)
    (pdirs fdirs : List MatchDirectory)
    (hp : pdirs.map MatchDirectory.OwnerOnly =
      policy.Spec.Process.MatchDirectories.map MatchDirectory.OwnerOnly)
    (hf : fdirs.map MatchDirectory.OwnerOnly =
      policy.Spec.File.MatchDirectories.map MatchDirectory.OwnerOnly) :
    validateProcessSchema
        { policy with Spec := { policy.Spec with
            Process := { policy.Spec.Process with MatchDirectories := pdirs },
            File := { policy.Spec.File with MatchDirectories := fdirs } } } req =
        validateProcessSchema policy req ∧
      validateFileSchema
        { policy with Spec := { policy.Spec with
            Process := { policy.Spec.Process with MatchDirectories := pdirs },
            File := { policy.Spec.File with MatchDirectories := fdirs } } } req =
        validateFileSchema policy req ∧
      validateNetworkSchema
        { policy with Spec := { policy.Spec with
            Process := { policy.Spec.Process with MatchDirectories := pdirs },
            File := { policy.Spec.File with MatchDirectories := fdirs } } } req =
        validateNetworkSchema policy req ∧
      validateCapabilitiesSchema
        { policy with Spec := { policy.Spec with
            Process := { policy.Spec.Process with MatchDirectories := pdirs },
            File := { policy.Spec.File with MatchDirectories := fdirs } } } req =
        validateCapabilitiesSchema policy req := by
  refine ⟨?_, ?_, rfl, rfl⟩
  · simp only [validateProcessSchema,
      matchDirectoriesLoop_congr policy.Spec.Action req pdirs _ hp]
  · simp only [validateFileSchema,
      matchDirectoriesLoop_congr policy.Spec.Action req fdirs _ hf]

theorem directory_sources_ignored_witness :
    validateProcessSchema
        { Spec := { Action := "Allow", Process := { MatchDirectories := [{}] },
                    File := { MatchDirectories := [{}] } } } sampleRequest =
        validateProcessSchema allowDirectorySourcePolicy sampleRequest ∧
      validateFileSchema
        { Spec := { Action := "Allow", Process := { MatchDirectories := [{}] },
                    File := { MatchDirectories := [{}] } } } sampleRequest =
        validateFileSchema allowDirectorySourcePolicy sampleRequest :=
  have h := directory_sources_ignored allowDirectorySourcePolicy sampleRequest [{}] [{}]
    (by decide) (by decide)
  ⟨h.1, h.2.1⟩

/-- C15: `validateProcessSchema` and `validateFileSchema` each return the first
violation of the traversal: the match-path rules in order, for each one its
owner-only check and then its sources in order, then the match-directory rules,
then the match-pattern rules. With `action = Block` and `process.matchPaths =
[{fromSource: [{path: "/bin/x"}]}, {ownerOnly: true}]` the violation is the
source-scoping one. A violation among the match-path rules is the result
whatever the match-directory and match-pattern rules are, and it is the
source-scoping one when no match-path rule before it is in owner-only
violation. -/
theorem validators_return_first_violation :
    (∀ (policy : KubeArmorHostPolicy) (req : Request),
      validateProcessSchema policy req = firstViolation (processTraversal policy req)) ∧
    (∀ (policy : KubeArmorHostPolicy) (req : Request),
      validateFileSchema policy req = firstViolation (fileTraversal policy req)) ∧
    (∀ (req : Request),
      validateProcessSchema blockSourceThenOwnerPolicy req =
        some (Errorf "recursive is only effective with directories, not paths " req.NamespacedName)) ∧
    (∀ (policy : KubeArmorHostPolicy) (req : Request) (e : GoError),
      processMatchPathsLoop policy.Spec.Action req policy.Spec.Process.MatchPaths = some e →
      validateProcessSchema policy req = some e) ∧
    (∀ (policy : KubeArmorHostPolicy) (req : Request) (e : GoError),
      fileMatchPathsLoop policy.Spec.Action req policy.Spec.File.MatchPaths = some e →
      validateFileSchema policy req = some e) ∧
    (∀ (policy : KubeArmorHostPolicy) (req : Request),
      (∃ m ∈ policy.Spec.Process.MatchPaths, ∃ s ∈ m.FromSource, s.Path ≠ "") →
      (∀ m ∈ policy.Spec.Process.MatchPaths, m.OwnerOnly = false) →
      validateProcessSchema policy req =
        some (Errorf "recursive is only effective with directories, not paths " req.NamespacedName)) ∧
    (∀ (policy : KubeArmorHostPolicy) (req : Request),
      (∃ m ∈ policy.Spec.File.MatchPaths, ∃ s ∈ m.FromSource,
        s.Path ≠ "" ∧ s.Recursive = true) →
      (∀ m ∈ policy.Spec.File.MatchPaths, m.OwnerOnly = false) →
      validateFileSchema policy req =
        some (Errorf "recursive is only effective with directories, not paths " req.NamespacedName)) := by
  have hproc : ∀ (policy : KubeArmorHostPolicy) (req : Request) (e : GoError),
      processMatchPathsLoop policy.Spec.Action req policy.Spec.Process.MatchPaths = some e →
      validateProcessSchema policy req = some e := by
    intro policy req e h
    simp only [validateProcessSchema, h]
  have hfile : ∀ (policy : KubeArmorHostPolicy) (req : Request) (e : GoError),
      fileMatchPathsLoop policy.Spec.Action req policy.Spec.File.MatchPaths = some e →
      validateFileSchema policy req = some e := by
    intro policy req e h
    simp only [validateFileSchema, h]
  refine ⟨?_, ?_, ?_, hproc, hfile, ?_, ?_⟩
  · intro policy req
    simp only [validateProcessSchema, processTraversal, firstViolation_append,
      ← processMatchPathsLoop_eq_firstViolation, ← matchDirectoriesLoop_eq_firstViolation,
      ← matchPatternsLoop_eq_firstViolation]
  · intro policy req
    simp only [validateFileSchema, fileTraversal, firstViolation_append,
      ← fileMatchPathsLoop_eq_firstViolation, ← matchDirectoriesLoop_eq_firstViolation,
      ← matchPatternsLoop_eq_firstViolation]
  · intro req
    simp [validateProcessSchema, blockSourceThenOwnerPolicy, processMatchPathsLoop,
      fromSourceLoop]
  · intro policy req hsrc hown
    cases hl : processMatchPathsLoop policy.Spec.Action req policy.Spec.Process.MatchPaths with
    | none =>
      obtain ⟨m, hm, s, hs, hpath⟩ := hsrc
      exact absurd ((((processMatchPathsLoop_eq_none _ req _).1 hl) m hm).2 s hs) hpath
    | some e =>
      rw [hproc policy req e hl]
      rcases processMatchPathsLoop_some _ req _ e hl with ⟨_, _, m, hm, ho⟩ | ⟨h1, _⟩
      · rw [hown m hm] at ho; exact absurd ho Bool.false_ne_true
      · rw [h1]
  · intro policy req hsrc hown
    cases hl : fileMatchPathsLoop policy.Spec.Action req policy.Spec.File.MatchPaths with
    | none =>
      obtain ⟨m, hm, s, hs, hpath⟩ := hsrc
      exact absurd hpath ((((fileMatchPathsLoop_eq_none _ req _).1 hl) m hm).2 s hs)
    | some e =>
      rw [hfile policy req e hl]
      rcases fileMatchPathsLoop_some _ req _ e hl with ⟨_, _, m, hm, ho⟩ | ⟨h1, _⟩
      · rw [hown m hm] at ho; exact absurd ho Bool.false_ne_true
      · rw [h1]

theorem validators_return_first_violation_witness :
    validateProcessSchema blockSourceThenOwnerPolicy sampleRequest =
        firstViolation (processTraversal blockSourceThenOwnerPolicy sampleRequest) ∧
      validateProcessSchema blockSourceThenOwnerPolicy sampleRequest =
        some (.errorString
          "recursive is only effective with directories, not paths default/hsp") ∧
      validateProcessSchema
          { blockSourceThenOwnerPolicy with Spec := { blockSourceThenOwnerPolicy.Spec with
              Process := { MatchPaths := [{ FromSource := [{ Path := "/bin/x" }] }],
                           MatchDirectories := [{ OwnerOnly := true }],
                           MatchPatterns := [{ OwnerOnly := true }] } } } sampleRequest =
        some (Errorf "recursive is only effective with directories, not paths "
          sampleRequest.NamespacedName) :=
  ⟨validators_return_first_violation.1 blockSourceThenOwnerPolicy sampleRequest,
    validators_return_first_violation.2.2.1 sampleRequest,
    validators_return_first_violation.2.2.2.2.2.1 _ sampleRequest
      ⟨{ FromSource := [{ Path := "/bin/x" }] }, by decide, { Path := "/bin/x" }, by decide,
        by decide⟩
      (by decide)⟩

/-! ## The action, the network and capabilities sections, the messages -/

/-- C16: every action other than the exact string `"Allow"` is treated the
same. For two policies that differ only in their action, both actions being
different from `"Allow"`, each of the four validators returns the same result
on both, and `Reconcile` writes the same status. -/
theorem non_allow_actions_uniform (policy : KubeArmorHostPolicy) (req : Request)
    (a1 a2 : String) (h1 : a1 ≠ "Allow") (h2 : a2 ≠ "Allow") :
    validateProcessSchema { policy with Spec := { policy.Spec with Action := a1 } } req =
        validateProcessSchema { policy with Spec := { policy.Spec with Action := a2 } } req ∧
      validateFileSchema { policy with Spec := { policy.Spec with Action := a1 } } req =
        validateFileSchema { policy with Spec := { policy.Spec with Action := a2 } } req ∧
      validateNetworkSchema { policy with Spec := { policy.Spec with Action := a1 } } req =
        validateNetworkSchema { policy with Spec := { policy.Spec with Action := a2 } } req ∧
      validateCapabilitiesSchema { policy with Spec := { policy.Spec with Action := a1 } } req =
        validateCapabilitiesSchema
          { policy with Spec := { policy.Spec with Action := a2 } } req ∧
      ∀ (σ τ : Type) (r1 : Client σ) (r2 : Client τ) (w w1 : σ) (v v1 : τ),
        r1.Get req.NamespacedName w =
          (.ok { policy with Spec := { policy.Spec with Action := a1 } }, w1) →
        r2.Get req.NamespacedName v =
          (.ok { policy with Spec := { policy.Spec with Action := a2 } }, v1) →
        writtenStatuses (Reconcile r1 req w).events =
          writtenStatuses (Reconcile r2 req v).events := by
  have hp : validateProcessSchema { policy with Spec := { policy.Spec with Action := a1 } } req =
      validateProcessSchema { policy with Spec := { policy.Spec with Action := a2 } } req := by
    simp only [validateProcessSchema, processMatchPathsLoop_action a1 a2 h1 h2,
      matchDirectoriesLoop_action a1 a2 h1 h2, matchPatternsLoop_action a1 a2 h1 h2]
  have hf : validateFileSchema { policy with Spec := { policy.Spec with Action := a1 } } req =
      validateFileSchema { policy with Spec := { policy.Spec with Action := a2 } } req := by
    simp only [validateFileSchema, fileMatchPathsLoop_action a1 a2 h1 h2,
      matchDirectoriesLoop_action a1 a2 h1 h2, matchPatternsLoop_action a1 a2 h1 h2]
  have hn : validateNetworkSchema { policy with Spec := { policy.Spec with Action := a1 } } req =
      validateNetworkSchema { policy with Spec := { policy.Spec with Action := a2 } } req := rfl
  have hc : validateCapabilitiesSchema
      { policy with Spec := { policy.Spec with Action := a1 } } req =
      validateCapabilitiesSchema
        { policy with Spec := { policy.Spec with Action := a2 } } req := rfl
  refine ⟨hp, hf, hn, hc, ?_⟩
  intro σ τ r1 r2 w w1 v v1 hg1 hg2
  rw [writtenStatuses_of_get_ok r1 req w w1 _ hg1, writtenStatuses_of_get_ok r2 req v v1 _ hg2]
  have hpass : validationPass { policy with Spec := { policy.Spec with Action := a1 } } req =
      validationPass { policy with Spec := { policy.Spec with Action := a2 } } req := by
    simp only [validationPass, hp, hf, hn, hc]
  rw [hpass]

theorem non_allow_actions_uniform_witness :
    validateProcessSchema blockOwnerOnlyPolicy sampleRequest =
        validateProcessSchema
          { blockOwnerOnlyPolicy with Spec := { blockOwnerOnlyPolicy.Spec with
              Action := "allow" } } sampleRequest ∧
      writtenStatuses (Reconcile storeClient sampleRequest
          (sampleStore blockOwnerOnlyPolicy)).events =
        writtenStatuses (Reconcile storeClient sampleRequest
          (sampleStore { blockOwnerOnlyPolicy with Spec := { blockOwnerOnlyPolicy.Spec with
              Action := "allow" } })).events :=
  have h := non_allow_actions_uniform blockOwnerOnlyPolicy sampleRequest "Block" "allow"
    (by decide) (by decide)
  ⟨h.1, h.2.2.2.2 Store Store storeClient storeClient (sampleStore blockOwnerOnlyPolicy)
    (sampleStore blockOwnerOnlyPolicy)
    (sampleStore { blockOwnerOnlyPolicy with Spec := { blockOwnerOnlyPolicy.Spec with
      Action := "allow" } })
    (sampleStore { blockOwnerOnlyPolicy with Spec := { blockOwnerOnlyPolicy.Spec with
      Action := "allow" } }) rfl rfl⟩

/-- C17: `validateNetworkSchema` reports a violation if and only if some
SourceRef of some match-protocol rule has a non-empty path, and
`validateCapabilitiesSchema` if and only if some SourceRef of some
match-capability rule has one. Each result is the same for any two policies
whose rules of that section carry the same source paths, whatever their
actions, their `recursive` flags and their process and file sections. -/
theorem network_capabilities_violation_iff :
    (∀ (policy : KubeArmorHostPolicy) (req : Request),
      validateNetworkSchema policy req ≠ none ↔
        ∃ m ∈ policy.Spec.Network.MatchProtocols, ∃ s ∈ m.FromSource, s.Path ≠ "") ∧
    (∀ (policy : KubeArmorHostPolicy) (req : Request),
      validateCapabilitiesSchema policy req ≠ none ↔
        ∃ m ∈ policy.Spec.Capabilities.MatchCapabilities, ∃ s ∈ m.FromSource, s.Path ≠ "") ∧
    (∀ (policy other : KubeArmorHostPolicy) (req : Request),
      policy.Spec.Network.MatchProtocols.map (fun m => m.FromSource.map SourceRef.Path) =
        other.Spec.Network.MatchProtocols.map (fun m => m.FromSource.map SourceRef.Path) →
      validateNetworkSchema policy req = validateNetworkSchema other req) ∧
    (∀ (policy other : KubeArmorHostPolicy) (req : Request),
      policy.Spec.Capabilities.MatchCapabilities.map
          (fun m => m.FromSource.map SourceRef.Path) =
        other.Spec.Capabilities.MatchCapabilities.map
          (fun m => m.FromSource.map SourceRef.Path) →
      validateCapabilitiesSchema policy req = validateCapabilitiesSchema other req) := by
  refine ⟨?_, ?_, ?_, ?_⟩
  · intro policy req
    rw [Ne, validateNetworkSchema_eq_none]
    push_neg
    rfl
  · intro policy req
    rw [Ne, validateCapabilitiesSchema_eq_none]
    push_neg
    rfl
  · intro policy other req h
    exact matchProtocolsLoop_paths req _ _ h
  · intro policy other req h
    exact matchCapabilitiesLoop_paths req _ _ h

theorem network_capabilities_violation_iff_witness :
    validateNetworkSchema allowNetworkSourcePolicy sampleRequest ≠ none ∧
      validateNetworkSchema allowNetworkSourcePolicy sampleRequest =
        validateNetworkSchema
          { Spec := { Action := "Block",
                      Process := { MatchPaths := [{ OwnerOnly := true }] },
                      Network := { MatchProtocols :=
                        [{ FromSource := [{ Path := "/bin/app", Recursive := true }] }] } } }
          sampleRequest :=
  ⟨(network_capabilities_violation_iff.1 allowNetworkSourcePolicy sampleRequest).2
      ⟨{ FromSource := [{ Path := "/bin/app", Recursive := false }] }, by decide,
        { Path := "/bin/app", Recursive := false }, by decide, by decide⟩,
    network_capabilities_violation_iff.2.2.1 allowNetworkSourcePolicy _ sampleRequest
      (by decide)⟩

/-- C18, as stated, fails: the owner-only violation of the policy `{action:
Block, process.matchPaths: [{ownerOnly: true}]}` carries the text `ownerOnly
works with the Allow action default/hsp`, which is neither of the two claimed
messages followed by the reference, whatever stands between them. -/
theorem ownerOnly_message_is_not_the_claimed_one :
    validateProcessSchema blockOwnerOnlyPolicy sampleRequest =
        some (.errorString "ownerOnly works with the Allow action default/hsp") ∧
      (∀ sep : String, validateProcessSchema blockOwnerOnlyPolicy sampleRequest ≠
        some (.errorString ("ownerOnly only valid with Allow action" ++ sep ++
          sampleRequest.NamespacedName.String))) ∧
      (∀ sep : String, validateProcessSchema blockOwnerOnlyPolicy sampleRequest ≠
        some (.errorString ("recursive is only effective with directories, not paths" ++ sep ++
          sampleRequest.NamespacedName.String))) := by
  have hval : validateProcessSchema blockOwnerOnlyPolicy sampleRequest =
      some (.errorString "ownerOnly works with the Allow action default/hsp") := by decide
  refine ⟨hval, ?_, ?_⟩
  · intro sep h
    rw [hval] at h
    have h1 := congrArg String.data (GoError.errorString.inj (Option.some.inj h))
    simp only [String.data_append] at h1
    simp at h1
  · intro sep h
    rw [hval] at h
    have h1 := congrArg String.data (GoError.errorString.inj (Option.some.inj h))
    simp only [String.data_append] at h1
    simp at h1

/-- C18, amended: every violation returned by the four validators is a fixed
message followed by a space and the policy's reference `namespace/name`. The
message is `ownerOnly works with the Allow action` for an owner-only violation
(the action is not `"Allow"` and a rule of the section has `ownerOnly = true`)
and `recursive is only effective with directories, not paths` for a
source-scoping violation; no other message is produced, and the network and
capabilities validators produce the second one only. -/
theorem violation_messages (policy : KubeArmorHostPolicy) (req : Request) (e : GoError) :
    (validateProcessSchema policy req = some e →
      (e = .errorString ("ownerOnly works with the Allow action " ++
            req.NamespacedName.String) ∧
          policy.Spec.Action ≠ "Allow" ∧
          ((∃ m ∈ policy.Spec.Process.MatchPaths, m.OwnerOnly = true) ∨
            (∃ m ∈ policy.Spec.Process.MatchDirectories, m.OwnerOnly = true) ∨
            (∃ m ∈ policy.Spec.Process.MatchPatterns, m.OwnerOnly = true))) ∨
        (e = .errorString ("recursive is only effective with directories, not paths " ++
            req.NamespacedName.String) ∧
          ∃ m ∈ policy.Spec.Process.MatchPaths, ∃ s ∈ m.FromSource, s.Path ≠ "")) ∧
    (validateFileSchema policy req = some e →
      (e = .errorString ("ownerOnly works with the Allow action " ++
            req.NamespacedName.String) ∧
          policy.Spec.Action ≠ "Allow" ∧
          ((∃ m ∈ policy.Spec.File.MatchPaths, m.OwnerOnly = true) ∨
            (∃ m ∈ policy.Spec.File.MatchDirectories, m.OwnerOnly = true) ∨
            (∃ m ∈ policy.Spec.File.MatchPatterns, m.OwnerOnly = true))) ∨
        (e = .errorString ("recursive is only effective with directories, not paths " ++
            req.NamespacedName.String) ∧
          ∃ m ∈ policy.Spec.File.MatchPaths, ∃ s ∈ m.FromSource,
            s.Path ≠ "" ∧ s.Recursive = true)) ∧
    (validateNetworkSchema policy req = some e →
      e = .errorString ("recursive is only effective with directories, not paths " ++
            req.NamespacedName.String) ∧
        ∃ m ∈ policy.Spec.Network.MatchProtocols, ∃ s ∈ m.FromSource, s.Path ≠ "") ∧
    (validateCapabilitiesSchema policy req = some e →
      e = .errorString ("recursive is only effective with directories, not paths " ++
            req.NamespacedName.String) ∧
        ∃ m ∈ policy.Spec.Capabilities.MatchCapabilities, ∃ s ∈ m.FromSource, s.Path ≠ "") := by
  refine ⟨?_, ?_, ?_, ?_⟩
  · intro h
    unfold validateProcessSchema at h
    cases h1 : processMatchPathsLoop policy.Spec.Action req policy.Spec.Process.MatchPaths with
    | some e1 =>
      rw [h1] at h
      simp only [Option.some.injEq] at h
      subst h
      rcases processMatchPathsLoop_some _ req _ e1 h1 with ⟨ha, hb, hc⟩ | ⟨ha, hb⟩
      · exact Or.inl ⟨ha, hb, Or.inl hc⟩
      · exact Or.inr ⟨ha, hb⟩
    | none =>
      rw [h1] at h
      cases h2 : matchDirectoriesLoop policy.Spec.Action req
          policy.Spec.Process.MatchDirectories with
      | some e1 =>
        rw [h2] at h
        simp only [Option.some.injEq] at h
        subst h
        obtain ⟨ha, hb, hc⟩ := matchDirectoriesLoop_some _ req _ e1 h2
        exact Or.inl ⟨ha, hb, Or.inr (Or.inl hc)⟩
      | none =>
        rw [h2] at h
        obtain ⟨ha, hb, hc⟩ := matchPatternsLoop_some _ req _ e h
        exact Or.inl ⟨ha, hb, Or.inr (Or.inr hc)⟩
  · intro h
    unfold validateFileSchema at h
    cases h1 : fileMatchPathsLoop policy.Spec.Action req policy.Spec.File.MatchPaths with
    | some e1 =>
      rw [h1] at h
      simp only [Option.some.injEq] at h
      subst h
      rcases fileMatchPathsLoop_some _ req _ e1 h1 with ⟨ha, hb, hc⟩ | ⟨ha, hb⟩
      · exact Or.inl ⟨ha, hb, Or.inl hc⟩
      · exact Or.inr ⟨ha, hb⟩
    | none =>
      rw [h1] at h
      cases h2 : matchDirectoriesLoop policy.Spec.Action req
          policy.Spec.File.MatchDirectories with
      | some e1 =>
        rw [h2] at h
        simp only [Option.some.injEq] at h
        subst h
        obtain ⟨ha, hb, hc⟩ := matchDirectoriesLoop_some _ req _ e1 h2
        exact Or.inl ⟨ha, hb, Or.inr (Or.inl hc)⟩
      | none =>
        rw [h2] at h
        obtain ⟨ha, hb, hc⟩ := matchPatternsLoop_some _ req _ e h
        exact Or.inl ⟨ha, hb, Or.inr (Or.inr hc)⟩
  · intro h
    exact matchProtocolsLoop_some req _ e h
  · intro h
    exact matchCapabilitiesLoop_some req _ e h

theorem violation_messages_witness :
    validateProcessSchema blockOwnerOnlyPolicy sampleRequest =
        some (.errorString "ownerOnly works with the Allow action default/hsp") ∧
      ((GoError.errorString "ownerOnly works with the Allow action default/hsp" =
          .errorString ("ownerOnly works with the Allow action " ++
            sampleRequest.NamespacedName.String) ∧
          blockOwnerOnlyPolicy.Spec.Action ≠ "Allow" ∧
          ((∃ m ∈ blockOwnerOnlyPolicy.Spec.Process.MatchPaths, m.OwnerOnly = true) ∨
            (∃ m ∈ blockOwnerOnlyPolicy.Spec.Process.MatchDirectories, m.OwnerOnly = true) ∨
            (∃ m ∈ blockOwnerOnlyPolicy.Spec.Process.MatchPatterns, m.OwnerOnly = true))) ∨
        (GoError.errorString "ownerOnly works with the Allow action default/hsp" =
          .errorString ("recursive is only effective with directories, not paths " ++
            sampleRequest.NamespacedName.String) ∧
          ∃ m ∈ blockOwnerOnlyPolicy.Spec.Process.MatchPaths,
            ∃ s ∈ m.FromSource, s.Path ≠ "")) :=
  ⟨by decide,
    (violation_messages blockOwnerOnlyPolicy sampleRequest
      (.errorString "ownerOnly works with the Allow action default/hsp")).1 (by decide)⟩

/-! ## Adding rules never repairs a policy -/

/-- C19: invalidity is monotone under adding rules. For every policy `p` on
which the validation pass reports a violation, and every policy `p1` with the
same action obtained from `p` by appending further rules to its rule lists or
further SourceRefs to its `fromSource` lists, the validation pass on `p1`
reports a violation too and the status written for `p1` is `"Not OK"`;
equivalently, when `p1` is accepted, `p` is accepted and gets `"OK"`. -/
theorem adding_rules_keeps_violation (p p1 : KubeArmorHostPolicy) (req : Request)
    (happ : PolicyAppended p p1) :
    ((validationPass p req).1 ≠ none → (validationPass p1 req).1 ≠ none) ∧
    ((validationPass p req).1 ≠ none →
      ∀ (σ : Type) (r : Client σ) (w w1 : σ),
        r.Get req.NamespacedName w = (.ok p1, w1) →
          writtenStatuses (Reconcile r req w).events = ["Not OK"]) ∧
    ((validationPass p1 req).1 = none → (validationPass p req).1 = none) ∧
    ((validationPass p1 req).1 = none →
      ∀ (σ : Type) (r : Client σ) (w w1 : σ),
        r.Get req.NamespacedName w = (.ok p, w1) →
          writtenStatuses (Reconcile r req w).events = ["OK"]) := by
  have hmono : (validationPass p req).1 ≠ none → (validationPass p1 req).1 ≠ none :=
    fun h h1 => h (validationPass_none_of_appended p p1 req happ h1)
  refine ⟨hmono, ?_, validationPass_none_of_appended p p1 req happ, ?_⟩
  · intro h σ r w w1 hget
    exact writtenStatuses_of_violation r req w w1 p1 hget (hmono h)
  · intro h σ r w w1 hget
    exact writtenStatuses_of_valid r req w w1 p hget
      (validationPass_none_of_appended p p1 req happ h)

theorem adding_rules_keeps_violation_witness :
    PolicyAppended blockOwnerOnlyPolicy blockOwnerOnlyGrownPolicy ∧
      (validationPass blockOwnerOnlyPolicy sampleRequest).1 ≠ none ∧
      (validationPass blockOwnerOnlyGrownPolicy sampleRequest).1 ≠ none ∧
      writtenStatuses (Reconcile storeClient sampleRequest
        (sampleStore blockOwnerOnlyGrownPolicy)).events = ["Not OK"] :=
  have happ : PolicyAppended blockOwnerOnlyPolicy blockOwnerOnlyGrownPolicy :=
    { action := rfl
      processPaths :=
        ⟨[{ OwnerOnly := true, FromSource := [{ Path := "/bin/x" }] }], [{}], rfl,
          List.Forall₂.cons ⟨rfl, [{ Path := "/bin/x" }], rfl⟩ List.Forall₂.nil⟩
      processDirectories := ⟨[], [], rfl, List.Forall₂.nil⟩
      processPatterns := ⟨[], [], rfl, List.Forall₂.nil⟩
      filePaths := ⟨[], [], rfl, List.Forall₂.nil⟩
      fileDirectories := ⟨[], [], rfl, List.Forall₂.nil⟩
      filePatterns := ⟨[], [], rfl, List.Forall₂.nil⟩
      protocols := ⟨[], [{}], rfl, List.Forall₂.nil⟩
      capabilities := ⟨[], [], rfl, List.Forall₂.nil⟩ }
  have h := adding_rules_keeps_violation blockOwnerOnlyPolicy blockOwnerOnlyGrownPolicy
    sampleRequest happ
  ⟨happ, by decide, h.1 (by decide),
    h.2.1 (by decide) Store storeClient (sampleStore blockOwnerOnlyGrownPolicy)
      (sampleStore blockOwnerOnlyGrownPolicy) rfl⟩

end Controllers
